import Mathlib

/-!
Verification development for the devbridge concurrent bounded-depth web
crawler (`src/devbridge/utils/http_crawler.py`).

The development shallowly embeds:
* the retry/backoff fetcher `fetch_url_content` as a pure function over an
  oracle describing the outcome of each network attempt;
* the URL machinery of Python's `urllib.parse` (`urlsplit`, `urlparse`,
  `urlunparse`, `urljoin`) that the crawler calls, ported over character
  lists (the port covers URLs free of control characters, which the
  modern stdlib strips before parsing, and omits the stdlib's non-ASCII
  NFKC netloc check);
* the crawl loop of `crawl`/`process_single_url` as a small-step transition
  system over a crawl state, with ghost logs of every enqueue, dispatch and
  completion; nondeterministic interleaving of the concurrent fetch tasks is
  captured by the choice of which in-flight task completes next.

External effects are oracles: the network is a map from URL to the fetch
triple, pages are maps from URL to the list of anchor href values found by
the HTML parser, and the robots.txt policy is an abstract boolean predicate
(the parsed `RobotFileParser` is stdlib code; the crawler only consumes its
`can_fetch` answers).
-/

namespace DevBridge

/-- Python `dict` assignment `d[k] = v` on an association list: replace the
binding if the key is present, otherwise append it. -/
def upsert (l : List (String × String)) (k v : String) : List (String × String) :=
  match l with
  | [] => [(k, v)]
  | (a, b) :: t => if a = k then (k, v) :: t else (a, b) :: upsert t k v

/-- List version of the prefix test (kernel-computable). -/
def isPrefixL : List Char → List Char → Bool
  | [], _ => true
  | _ :: _, [] => false
  | a :: as, b :: bs => a = b && isPrefixL as bs

/-- List version of the suffix test. -/
def isSuffixL (suf l : List Char) : Bool :=
  isPrefixL suf.reverse l.reverse

/-- Does `sub` occur as a contiguous sublist of `l`? -/
def containsSubL (l sub : List Char) : Bool :=
  if isPrefixL sub l then true
  else
    match l with
    | [] => false
    | _ :: t => containsSubL t sub

/-- `sub in s` on Python strings (substring test). -/
def strContains (s sub : String) : Bool :=
  containsSubL s.toList sub.toList

/-- `s.startswith(pre)`. -/
def startsWithStr (s pre : String) : Bool :=
  isPrefixL pre.toList s.toList

/-- `s.endswith(suf)`. -/
def endsWithStr (s suf : String) : Bool :=
  isSuffixL suf.toList s.toList

/-- `s.lower()` (ASCII). -/
def toLowerStr (s : String) : String :=
  String.mk (s.toList.map Char.toLower)

/-- `s.split(c)` for a single-character separator. -/
def splitOnCharAux (c : Char) (acc : List Char) : List Char → List (List Char)
  | [] => [acc.reverse]
  | x :: rest =>
    if x = c then acc.reverse :: splitOnCharAux c [] rest
    else splitOnCharAux c (x :: acc) rest

/-- `path.split('/')` as a list of strings. -/
def splitSlash (s : String) : List String :=
  (splitOnCharAux '/' [] s.toList).map String.mk

/-- `'/'.join(parts)`. -/
def joinSlash : List String → String
  | [] => ""
  | [x] => x
  | x :: rest => x ++ "/" ++ joinSlash rest

/-! ## Port of the `urllib.parse` functions used by the crawler -/

/-- Characters allowed in a URL scheme (`urllib.parse.scheme_chars`). -/
def schemeChar (c : Char) : Bool :=
  c.isAlpha || c.isDigit || c = '+' || c = '-' || c = '.'

/-- Split a character list at the first occurrence of `target`; the
occurrence itself is dropped.  `none` when `target` does not occur. -/
def breakAtFirstChar (target : Char) : List Char → Option (List Char × List Char)
  | [] => none
  | c :: rest =>
    if c = target then some ([], rest)
    else (breakAtFirstChar target rest).map (fun p => (c :: p.1, p.2))

/-- Split a character list around its last `'/'`: returns
`(front including the slash, tail after the slash)`. -/
def breakAtLastSlash : List Char → Option (List Char × List Char)
  | [] => none
  | c :: rest =>
    match breakAtLastSlash rest with
    | some (f, t) => some (c :: f, t)
    | none => if c = '/' then some ([c], rest) else none

/-- `urllib.parse._splitnetloc`: the netloc extends to the first
`'/'`, `'?'` or `'#'`. -/
def splitNetlocAux (acc : List Char) : List Char → List Char × List Char
  | [] => (acc.reverse, [])
  | c :: rest =>
    if c = '/' ∨ c = '?' ∨ c = '#' then (acc.reverse, c :: rest)
    else splitNetlocAux (c :: acc) rest

/-- Scheme extraction in `urllib.parse.urlsplit`: the text before the first
`':'` is a scheme when it is nonempty, starts with an ASCII letter and
consists of scheme characters only. -/
def splitScheme (cs : List Char) : Option (List Char × List Char) :=
  match breakAtFirstChar ':' cs with
  | none => none
  | some (before, after) =>
    match before with
    | [] => none
    | c0 :: _ =>
      if c0.isAlpha ∧ before.all schemeChar then some (before, after) else none

/-- Result of `urllib.parse.urlsplit`. -/
structure SplitRes where
  scheme : String
  netloc : String
  path : String
  query : String
  fragment : String
  deriving DecidableEq, Repr

/-- Result of `urllib.parse.urlparse` (a `SplitRes` plus `params`). -/
structure ParseRes where
  scheme : String
  netloc : String
  path : String
  params : String
  query : String
  fragment : String
  deriving DecidableEq, Repr

/-- `urllib.parse.urlsplit(url, scheme0)`.  Raises (models the stdlib
`ValueError`) exactly on a netloc with an unbalanced square bracket. -/
def urlsplitE (url : String) (scheme0 : String) : Except String SplitRes :=
  let cs := url.toList
  let schemeRest : String × List Char :=
    match splitScheme cs with
    | some (sch, r) => (String.mk (sch.map Char.toLower), r)
    | none => (scheme0, cs)
  let scheme := schemeRest.1
  let rest := schemeRest.2
  let netlocRest : List Char × List Char :=
    match rest with
    | '/' :: '/' :: tail => splitNetlocAux [] tail
    | _ => ([], rest)
  let netloc := netlocRest.1
  let rest2 := netlocRest.2
  if ('[' ∈ netloc ∧ ']' ∉ netloc) ∨ (']' ∈ netloc ∧ '[' ∉ netloc) then
    .error ("Invalid IPv6 URL")
  else
    let fragSplit : List Char × List Char :=
      match breakAtFirstChar '#' rest2 with
      | some (u, f) => (u, f)
      | none => (rest2, [])
    let querySplit : List Char × List Char :=
      match breakAtFirstChar '?' fragSplit.1 with
      | some (u, q) => (u, q)
      | none => (fragSplit.1, [])
    .ok { scheme := scheme, netloc := String.mk netloc, path := String.mk querySplit.1,
          query := String.mk querySplit.2, fragment := String.mk fragSplit.2 }

/-- `urllib.parse._splitparams`: split params off the last path segment. -/
def splitParams (cs : List Char) : List Char × List Char :=
  match breakAtLastSlash cs with
  | some (front, tail) =>
    match breakAtFirstChar ';' tail with
    | some (a, b) => (front ++ a, b)
    | none => (cs, [])
  | none =>
    match breakAtFirstChar ';' cs with
    | some (a, b) => (a, b)
    | none => (cs, [])

/-- `urllib.parse.uses_params`. -/
def usesParams : List String :=
  ["", "ftp", "hdl", "prospero", "http", "imap", "https", "shttp", "rtsp",
   "rtspu", "sip", "sips", "mms", "sftp", "tel"]

/-- `urllib.parse.uses_relative`. -/
def usesRelative : List String :=
  ["", "ftp", "http", "gopher", "nntp", "imap", "wais", "file", "https",
   "shttp", "mms", "prospero", "rtsp", "rtspu", "sftp", "svn", "svn+ssh",
   "ws", "wss"]

/-- `urllib.parse.uses_netloc`. -/
def usesNetloc : List String :=
  ["", "ftp", "http", "gopher", "nntp", "telnet", "imap", "wais", "file",
   "mms", "https", "shttp", "snews", "prospero", "rtsp", "rtspu", "rsync",
   "svn", "svn+ssh", "sftp", "nfs", "git", "git+ssh", "ws", "wss"]

/-- `urllib.parse.urlparse(url, scheme0)`. -/
def urlparseE (url : String) (scheme0 : String) : Except String ParseRes := do
  let s ← urlsplitE url scheme0
  let pathCs := s.path.toList
  if s.scheme ∈ usesParams ∧ ';' ∈ pathCs then
    let pp := splitParams pathCs
    pure { scheme := s.scheme, netloc := s.netloc, path := String.mk pp.1,
           params := String.mk pp.2, query := s.query, fragment := s.fragment }
  else
    pure { scheme := s.scheme, netloc := s.netloc, path := s.path,
           params := "", query := s.query, fragment := s.fragment }

/-- `urllib.parse.urlunsplit`. -/
def urlunsplitStr (scheme netloc url query fragment : String) : String :=
  let url1 :=
    if netloc ≠ "" ∨ (url ≠ "" ∧ startsWithStr url ("//")) then
      "//" ++ netloc ++ (if url ≠ "" ∧ ¬ startsWithStr url ("/") then "/" ++ url else url)
    else url
  let url2 := if scheme ≠ "" then scheme ++ ":" ++ url1 else url1
  let url3 := if query ≠ "" then url2 ++ "?" ++ query else url2
  if fragment ≠ "" then url3 ++ "#" ++ fragment else url3

/-- `urllib.parse.urlunparse`. -/
def urlunparseStr (p : ParseRes) : String :=
  let u := if p.params ≠ "" then p.path ++ ";" ++ p.params else p.path
  urlunsplitStr p.scheme p.netloc u p.query p.fragment

/-- Keep the first and last element, drop empty strings strictly inside
(`segments[1:-1] = filter(None, segments[1:-1])`). -/
def filterMiddleAux : List String → List String
  | [] => []
  | [x] => [x]
  | x :: rest => if x = "" then filterMiddleAux rest else x :: filterMiddleAux rest

def filterMiddle : List String → List String
  | [] => []
  | [x] => [x]
  | x :: rest => x :: filterMiddleAux rest

/-- The `'.'`/`'..'` resolution loop of `urllib.parse.urljoin`. -/
def resolveDots (segs : List String) : List String :=
  segs.foldl
    (fun acc seg =>
      if seg = ".." then acc.dropLast
      else if seg = "." then acc
      else acc ++ [seg])
    []

/-- `urllib.parse.urljoin(base, url)`. -/
def urljoinE (base url : String) : Except String String :=
  if base = "" then .ok url
  else if url = "" then .ok base
  else do
    let b ← urlparseE base ("")
    let r ← urlparseE url b.scheme
    if r.scheme ≠ b.scheme ∨ r.scheme ∉ usesRelative then
      pure url
    else if r.scheme ∈ usesNetloc ∧ r.netloc ≠ "" then
      pure (urlunparseStr r)
    else
      let netloc := if r.scheme ∈ usesNetloc then b.netloc else r.netloc
      if r.path = "" ∧ r.params = "" then
        let query := if r.query = "" then b.query else r.query
        pure (urlunparseStr { scheme := r.scheme, netloc := netloc, path := b.path,
                              params := b.params, query := query, fragment := r.fragment })
      else
        let baseParts0 := splitSlash b.path
        let baseParts :=
          if baseParts0.getLast? ≠ some ("") then baseParts0.dropLast else baseParts0
        let segments :=
          if startsWithStr r.path ("/") then splitSlash r.path
          else filterMiddle (baseParts ++ splitSlash r.path)
        let resolved0 := resolveDots segments
        let resolved :=
          if segments.getLast? = some (".") ∨ segments.getLast? = some ("..") then
            resolved0 ++ [""]
          else resolved0
        let joined := joinSlash resolved
        let path := if joined = "" then "/" else joined
        pure (urlunparseStr { scheme := r.scheme, netloc := netloc, path := path,
                              params := r.params, query := r.query, fragment := r.fragment })

/-! ## The Fetcher: `fetch_url_content` -/

/-- Outcome of one `session.get` attempt (the network oracle's answer).
`response` is an HTTP response: for status `< 400` the call returns it, for
status `≥ 400` `raise_for_status` raises `aiohttp.ClientResponseError`
carrying the status and `message`.  The other constructors are the
exception classes handled by `fetch_url_content`, carrying the exception
type name used in the formatted error message. -/
inductive AttemptOutcome where
  | response (status : Nat) (content : String) (headers : List (String × String))
      (message : String)
  | timeout
  | connectionError (excName : String)
  | clientError (excName : String)
  | genericError (excName : String)
  deriving DecidableEq

/-- `status_code_for_error` assigned by each `except` branch
(and, for `response`, the `e.status` of the `ClientResponseError`). -/
def errorStatusOf : AttemptOutcome → Nat
  | .response s _ _ _ => s
  | .timeout => 408
  | .connectionError _ => 503
  | .clientError _ => 503
  | .genericError _ => 500

/-- `error_message` assigned by each `except` branch. -/
def errorMessageOf : AttemptOutcome → String
  | .response s _ _ m => "HTTP Error: " ++ toString s ++ " " ++ m
  | .timeout => "Request Timeout"
  | .connectionError n => "Client Connection Error: " ++ n
  | .clientError n => "Client Error: " ++ n
  | .genericError n => "Generic Fetch Error: " ++ n

/-- An attempt outcome on which the retry loop continues (every failure
except a 4xx response other than 408 and 429). -/
def retryableFailure : AttemptOutcome → Bool
  | .response s _ _ _ =>
    if s < 400 then false
    else if 400 ≤ s ∧ s < 500 ∧ s ≠ 408 ∧ s ≠ 429 then false
    else true
  | _ => true

/-- An attempt outcome on which `fetch_url_content` returns through the
success path (`raise_for_status` does not raise). -/
def isSuccessOutcome : AttemptOutcome → Bool
  | .response s _ _ _ => s < 400
  | _ => false

/-- Value of one call to `fetch_url_content`, with ghost observations:
`attemptsMade` counts the `session.get` calls performed, `sleeps` lists the
backoff sleep durations (milliseconds) in order, and `succeeded` records
whether the call returned through the success path. -/
structure FetchTrace where
  status : Nat
  body : String
  headers : List (String × String)
  attemptsMade : Nat
  sleeps : List Nat
  succeeded : Bool
  deriving DecidableEq

/-- The retry loop of `fetch_url_content`, from loop index `attempt`, with
`remaining = retry_limit - attempt` carried as structural fuel (the loop
guard `attempt < retry_limit` holds exactly when `remaining` is nonzero).
`net i` is the outcome of the `session.get` of attempt `i`. -/
def fetchAuxR (net : Nat → AttemptOutcome) (url : String)
    (retryLimit backoffBaseMs : Nat) : Nat → Nat → FetchTrace
  | attempt, remaining =>
    match net attempt with
    | .response s c hs m =>
      if s < 400 then
        { status := s, body := c, headers := hs, attemptsMade := attempt + 1,
          sleeps := [], succeeded := true }
      else if 400 ≤ s ∧ s < 500 ∧ s ≠ 408 ∧ s ≠ 429 then
        { status := s,
          body := errorMessageOf (.response s c hs m) ++ " (for " ++ url ++ ")",
          headers := [], attemptsMade := attempt + 1, sleeps := [], succeeded := false }
      else
        match remaining with
        | r + 1 =>
          let rest := fetchAuxR net url retryLimit backoffBaseMs (attempt + 1) r
          { rest with sleeps := backoffBaseMs * 2 ^ attempt :: rest.sleeps }
        | 0 =>
          { status := s,
            body := errorMessageOf (.response s c hs m) ++ " (after " ++
              toString (retryLimit + 1) ++ " attempts for " ++ url ++ ")",
            headers := [], attemptsMade := attempt + 1, sleeps := [], succeeded := false }
    | o =>
      match remaining with
      | r + 1 =>
        let rest := fetchAuxR net url retryLimit backoffBaseMs (attempt + 1) r
        { rest with sleeps := backoffBaseMs * 2 ^ attempt :: rest.sleeps }
      | 0 =>
        { status := errorStatusOf o,
          body := errorMessageOf o ++ " (after " ++
            toString (retryLimit + 1) ++ " attempts for " ++ url ++ ")",
          headers := [], attemptsMade := attempt + 1, sleeps := [], succeeded := false }

/-- The retry loop from loop index `attempt` (fuel instantiated). -/
def fetchAux (net : Nat → AttemptOutcome) (url : String)
    (retryLimit backoffBaseMs attempt : Nat) : FetchTrace :=
  fetchAuxR net url retryLimit backoffBaseMs attempt (retryLimit - attempt)

/-- `fetch_url_content(session, url, user_agent, retry_limit, backoff_base_ms)`. -/
def fetch_url_content (net : Nat → AttemptOutcome) (url : String)
    (retryLimit backoffBaseMs : Nat) : FetchTrace :=
  fetchAux net url retryLimit backoffBaseMs 0

/-! ## The crawl machine: `crawl` and `process_single_url` -/

/-- `NON_HTML_EXTENSIONS`. -/
def nonHtmlExtensions : List String :=
  [".css", ".js", ".mjs", ".json", ".ts", ".jsx", ".tsx",
   ".png", ".jpg", ".jpeg", ".gif", ".svg", ".webp", ".ico", ".bmp", ".tiff",
   ".woff", ".woff2", ".ttf", ".eot", ".otf",
   ".pdf", ".doc", ".docx", ".xls", ".xlsx", ".ppt", ".pptx",
   ".xml", ".rss", ".atom", ".csv", ".txt", ".rtf", ".md",
   ".yaml", ".yml", ".ini", ".cfg", ".log",
   ".zip", ".tar", ".gz", ".rar", ".7z",
   ".mp4", ".mp3", ".avi", ".mov", ".wmv", ".flv", ".m4a", ".ogg", ".wav",
   ".exe", ".dmg", ".apk", ".bin", ".iso", ".img",
   ".map", ".webmanifest", ".appcache", ".webarchive", ".bak",
   ".sql", ".db", ".sqlite",
   ".php", ".asp", ".aspx", ".jsp", ".cgi"]

/-- `any(path.lower().endswith(ext) for ext in NON_HTML_EXTENSIONS)`. -/
def extSkipB (path : String) : Bool :=
  nonHtmlExtensions.any (fun e => endsWithStr (toLowerStr path) e)

/-- External-world oracles and fixed parameters of one `crawl` invocation.
`fetch u` is the triple `fetch_url_content` returns for `u` (each URL is
fetched at most once, so a per-URL map loses no generality); `anchors u`
lists the `href` values of the `<a href=...>` tags BeautifulSoup finds in
the body fetched for `u`, in document order; `robots` is the
`RobotFileParser.can_fetch(user_agent, ·)` predicate when robots.txt was
parsed. -/
structure CrawlCfg where
  fetch : String → Nat × String × List (String × String)
  anchors : String → List String
  robots : Option (String → Bool)
  baseNetloc : String
  maxDepth : Nat
  maxConc : Nat
  root : String

/-- Crawl state shared by the coordinator loop and all in-flight tasks.
`queue`, `visited`, `html`, `errors`, `totalBytes` mirror the Python
objects; `inFlight` is the set of dispatched, uncompleted tasks; `enqLog`,
`dispLog`, `compLog` are ghost logs (most recent first) of every enqueue,
dispatch and completion. -/
structure St where
  queue : List (String × Nat)
  visited : List String
  inFlight : List (String × Nat)
  html : List (String × String)
  errors : List (String × String)
  totalBytes : Nat
  enqLog : List (String × Nat)
  dispLog : List String
  compLog : List String
  deriving DecidableEq

/-- Status component of the fetch triple for `u`. -/
def fetchStatus (cfg : CrawlCfg) (u : String) : Nat := (cfg.fetch u).1

/-- Body component of the fetch triple for `u`. -/
def fetchBody (cfg : CrawlCfg) (u : String) : String := (cfg.fetch u).2.1

/-- `response_headers.get("Content-Type", "").lower()`. -/
def contentTypeOf (cfg : CrawlCfg) (u : String) : String :=
  toLowerStr (((cfg.fetch u).2.2.lookup ("Content-Type")).getD (""))

/-- `"text/html" in content_type`. -/
def contentHtmlB (cfg : CrawlCfg) (u : String) : Bool :=
  strContains (contentTypeOf cfg u) ("text/html")

/-- The error message of the not-HTML skip branch. -/
def notHtmlMsg (cfg : CrawlCfg) (u : String) : String :=
  "Skipped: Not HTML (Content-Type: " ++ contentTypeOf cfg u ++ ")"

/-- The error message of the HTTP-error branch. -/
def httpErrMsg (cfg : CrawlCfg) (u : String) : String :=
  "HTTP Error: " ++ toString (fetchStatus cfg u) ++ " - " ++
    (if fetchBody cfg u = "" then "(No content returned for error)" else fetchBody cfg u)

/-- `not href or href.startswith(('mailto:', 'tel:', 'javascript:'))`-style
skip of an anchor. -/
def hrefSkipB (href : String) : Bool :=
  href = "" || startsWithStr href ("mailto:") || startsWithStr href ("tel:") ||
    startsWithStr href ("javascript:")

/-- The link-extraction loop of `process_single_url` (lines 270-293): one
iteration per `<a href>` of the fetched page.  An exception from
`urljoin`/`urlparse` (`Invalid IPv6 URL`) propagates to the enclosing
`except` handler, which records a processing error for the page URL and
abandons the remaining anchors. -/
def expandLinks (cfg : CrawlCfg) (u : String) (d : Nat) :
    List String → St → St
  | [], st => st
  | href :: rest, st =>
    if hrefSkipB href then expandLinks cfg u d rest st
    else
      match urljoinE u href with
      | .error e =>
        { st with errors := upsert st.errors u ("Processing Error: ValueError - " ++ e) }
      | .ok absoluteLink =>
        match urlparseE absoluteLink ("") with
        | .error e =>
          { st with errors := upsert st.errors u ("Processing Error: ValueError - " ++ e) }
        | .ok pl =>
          if extSkipB pl.path then expandLinks cfg u d rest st
          else if pl.netloc = cfg.baseNetloc ∧ (pl.scheme = "http" ∨ pl.scheme = "https") then
            match cfg.robots with
            | some cf =>
              if cf (urlunparseStr { pl with fragment := "" }) = false then
                expandLinks cfg u d rest
                  { st with errors :=
                      (upsert st.errors (urlunparseStr { pl with fragment := "" })
                        ("Skipped by robots.txt (discovered link)")) }
              else if urlunparseStr { pl with fragment := "" } ∈ st.visited then
                expandLinks cfg u d rest st
              else expandLinks cfg u d rest
                { st with visited := urlunparseStr { pl with fragment := "" } :: st.visited,
                          queue := st.queue ++
                            [(urlunparseStr { pl with fragment := "" }, d + 1)],
                          enqLog := (urlunparseStr { pl with fragment := "" }, d + 1) ::
                            st.enqLog }
            | none =>
              if urlunparseStr { pl with fragment := "" } ∈ st.visited then
                expandLinks cfg u d rest st
              else expandLinks cfg u d rest
                { st with visited := urlunparseStr { pl with fragment := "" } :: st.visited,
                          queue := st.queue ++
                            [(urlunparseStr { pl with fragment := "" }, d + 1)],
                          enqLog := (urlunparseStr { pl with fragment := "" }, d + 1) ::
                            st.enqLog }
          else expandLinks cfg u d rest st

/-- The body of `process_single_url` for the task `(u, d)`: content-type
filter, success recording, expansion when depth allows, HTTP-error
recording. -/
def processSingleUrl (cfg : CrawlCfg) (u : String) (d : Nat) (st : St) : St :=
  if contentHtmlB cfg u = false then
    { st with errors := upsert st.errors u (notHtmlMsg cfg u) }
  else if fetchStatus cfg u = 200 then
    let st1 := { st with html := upsert st.html u (fetchBody cfg u),
                         totalBytes := st.totalBytes + (fetchBody cfg u).utf8ByteSize }
    if d < cfg.maxDepth then expandLinks cfg u d (cfg.anchors u) st1 else st1
  else
    { st with errors := upsert st.errors u (httpErrMsg cfg u) }

/-- `robots_parser is None or robots_parser.can_fetch(user_agent, u)`. -/
def robotsOK (cfg : CrawlCfg) (u : String) : Prop :=
  ∀ cf, cfg.robots = some cf → cf u = true

/-- The crawl loop as a small-step relation.  The first three rules are the
dequeue-time processing of the coordinator (robots check, extension check,
dispatch under the concurrency bound); the last rule is the completion of
an arbitrary in-flight `process_single_url` task — the scheduler's choice
of which task finishes first is the only nondeterminism. -/
inductive Step (cfg : CrawlCfg) : St → St → Prop
  | dequeueRobots (s : St) (u : String) (d : Nat) (rest : List (String × Nat))
      (cf : String → Bool) :
      s.queue = (u, d) :: rest → cfg.robots = some cf → cf u = false →
      Step cfg s { s with queue := rest,
                          errors := upsert s.errors u ("Skipped by robots.txt") }
  | dequeueExt (s : St) (u : String) (d : Nat) (rest : List (String × Nat))
      (p : ParseRes) :
      s.queue = (u, d) :: rest → robotsOK cfg u →
      urlparseE u ("") = .ok p → extSkipB p.path = true →
      Step cfg s { s with queue := rest,
                          errors := upsert s.errors u
                            ("Skipped due to file extension: " ++ p.path) }
  | dispatch (s : St) (u : String) (d : Nat) (rest : List (String × Nat))
      (p : ParseRes) :
      s.queue = (u, d) :: rest → robotsOK cfg u →
      urlparseE u ("") = .ok p → extSkipB p.path = false →
      s.inFlight.length < cfg.maxConc →
      Step cfg s { s with queue := rest,
                          inFlight := s.inFlight ++ [(u, d)],
                          dispLog := u :: s.dispLog }
  | complete (s : St) (u : String) (d : Nat) (l1 l2 : List (String × Nat)) :
      s.inFlight = l1 ++ (u, d) :: l2 →
      Step cfg s (processSingleUrl cfg u d
        { s with inFlight := l1 ++ l2, compLog := u :: s.compLog })

/-- State after seeding the frontier with the validated root (lines
162-165). -/
def initSt (root : String) : St :=
  { queue := [(root, 0)], visited := [root], inFlight := [], html := [],
    errors := [], totalBytes := 0, enqLog := [(root, 0)], dispLog := [],
    compLog := [] }

/-- States the crawl loop can reach from the seeded frontier. -/
def Reachable (cfg : CrawlCfg) (s : St) : Prop :=
  Relation.ReflTransGen (Step cfg) (initSt cfg.root) s

/-- The loop's exit condition: frontier empty and no work in flight. -/
def Terminal (s : St) : Prop :=
  s.queue = [] ∧ s.inFlight = []

/-- The `CrawlResult` object. -/
structure CrawlResult where
  html_contents : List (String × String)
  errors : List (String × String)
  total_bytes : Nat
  start_time : Nat
  end_time : Nat
  deriving DecidableEq

/-- The `elapsed_ms` property: `(end - start) * 1000` when both stamps are
truthy (nonzero), else `0.0`. -/
def elapsed_ms (r : CrawlResult) : Int :=
  if r.start_time ≠ 0 ∧ r.end_time ≠ 0 then
    ((r.end_time : Int) - (r.start_time : Int)) * 1000
  else 0

/-- The entry of `crawl` up to the root-URL validation (lines 130-141):
an invalid root produces the terminal error result before any fetch work;
a valid root seeds the machine.  `clock i` is the event-loop time at the
`i`-th reading.  A root whose parse raises propagates the exception. -/
def crawlStart (clock : Nat → Nat) (root_url : String) :
    Except String (Sum CrawlResult St) :=
  match urlparseE root_url ("") with
  | .error e => .error e
  | .ok p =>
    if p.scheme = "" ∨ p.netloc = "" then
      .ok (.inl { html_contents := [],
                  errors := [(root_url, "Invalid root_url: Must be absolute.")],
                  total_bytes := 0, start_time := clock 0, end_time := clock 1 })
    else .ok (.inr (initSt root_url))

/-! ## Concrete scenarios -/

/-- Headers of an HTML response. -/
def htmlHeaders : List (String × String) := [("Content-Type", "text/html")]

/-- The state reached after dispatching and completing the root task. -/
def postRootSt (cfg : CrawlCfg) : St :=
  processSingleUrl cfg cfg.root 0
    { queue := [], visited := [cfg.root], inFlight := [], html := [],
      errors := [], totalBytes := 0, enqLog := [(cfg.root, 0)],
      dispLog := [cfg.root], compLog := [cfg.root] }

/-- Parse of the root `"http://a.com/"`. -/
def pRoot : ParseRes :=
  { scheme := "http", netloc := "a.com", path := "/", params := "", query := "",
    fragment := "" }

/-- Crawl whose root page carries an anchor whose href makes `urljoin`
raise `ValueError` (`"http://["`). -/
def cfgC1 : CrawlCfg :=
  { fetch := fun _ => (200, "<html>", htmlHeaders),
    anchors := fun _ => ["http://["],
    robots := none, baseNetloc := "a.com", maxDepth := 1, maxConc := 10,
    root := "http://a.com/" }

/-- Crawl whose root page links to a same-host `.png`. -/
def cfgC7 : CrawlCfg :=
  { fetch := fun _ => (200, "<html>", htmlHeaders),
    anchors := fun _ => ["/img.png"],
    robots := none, baseNetloc := "a.com", maxDepth := 1, maxConc := 10,
    root := "http://a.com/" }

/-- Robots predicate disallowing the path prefix `/private/` on host
`a.com`. -/
def cfC8 : String → Bool :=
  fun u => ! startsWithStr u ("http://a.com/private/")

/-- Crawl with a robots policy disallowing `/private/`, whose root page
links to `/private/x`. -/
def cfgC8 : CrawlCfg :=
  { fetch := fun _ => (200, "<html>", htmlHeaders),
    anchors := fun _ => ["/private/x"],
    robots := some cfC8, baseNetloc := "a.com", maxDepth := 1, maxConc := 10,
    root := "http://a.com/" }

/-- Depth-0 crawl whose root URL carries a fragment. -/
def cfgC9 : CrawlCfg :=
  { fetch := fun _ => (200, "<html>", htmlHeaders),
    anchors := fun _ => [],
    robots := none, baseNetloc := "a.com", maxDepth := 0, maxConc := 10,
    root := "http://a.com/x#frag" }

/-- Parse of `"http://a.com/x#frag"`. -/
def pC9 : ParseRes :=
  { scheme := "http", netloc := "a.com", path := "/x", params := "", query := "",
    fragment := "frag" }

/-- Parse of `"http://a.com/img.png"`. -/
def pPng : ParseRes :=
  { scheme := "http", netloc := "a.com", path := "/img.png", params := "",
    query := "", fragment := "" }

/-- Crawl whose fetch of any URL fails (empty header mapping). -/
def cfgC10a : CrawlCfg :=
  { fetch := fun _ => (503, "boom", []),
    anchors := fun _ => [],
    robots := none, baseNetloc := "a.com", maxDepth := 1, maxConc := 10,
    root := "http://a.com/" }

/-- Crawl whose fetch of any URL is an HTML-typed 404 response. -/
def cfgC10b : CrawlCfg :=
  { fetch := fun _ => (404, "not found", htmlHeaders),
    anchors := fun _ => [],
    robots := none, baseNetloc := "a.com", maxDepth := 1, maxConc := 10,
    root := "http://a.com/" }

/-- The result object of the invalid-root early return of `crawl`. -/
def crawlInvalidResult (clock : Nat → Nat) (root_url : String) : CrawlResult :=
  { html_contents := [],
    errors := [(root_url, "Invalid root_url: Must be absolute.")],
    total_bytes := 0, start_time := clock 0, end_time := clock 1 }

/-- A network that always times out. -/
def netTimeout : Nat → AttemptOutcome := fun _ => .timeout

/-- A network that always answers HTTP 408. -/
def net408 : Nat → AttemptOutcome :=
  fun _ => .response 408 ("") [] ("Request Timeout")

/-- A network that times out once, then succeeds. -/
def netFlaky : Nat → AttemptOutcome :=
  fun i => if i = 0 then .timeout else .response 200 ("ok") htmlHeaders ("")

/-! ## Crawl invariants -/

/-- A robots policy is present and rejects `u`. -/
def badRobots (cfg : CrawlCfg) (u : String) : Prop :=
  ∃ cf, cfg.robots = some cf ∧ cf u = false

/-- `u` has the shape produced by link normalization: the unparse of a
same-host http/https parse with the fragment stripped. -/
def NormShape (cfg : CrawlCfg) (u : String) : Prop :=
  ∃ p : ParseRes, p.fragment = "" ∧ p.netloc = cfg.baseNetloc ∧
    (p.scheme = "http" ∨ p.scheme = "https") ∧ u = urlunparseStr p

/-- Exhaustive description of how a binding `u ↦ v` can enter `errors`:
a dequeue-time robots skip, a dequeue-time extension skip, a
discovery-time robots skip, a not-HTML completion, an HTTP-error
completion, or a processing error during expansion. -/
def ErrSpec (cfg : CrawlCfg) (enq comp : List String) (u v : String) : Prop :=
  (v = "Skipped by robots.txt" ∧ badRobots cfg u ∧ u ∈ enq)
  ∨ (∃ p, urlparseE u ("") = Except.ok p ∧ extSkipB p.path = true ∧
      v = "Skipped due to file extension: " ++ p.path ∧ u ∈ enq ∧ robotsOK cfg u)
  ∨ (v = "Skipped by robots.txt (discovered link)" ∧ badRobots cfg u ∧
      NormShape cfg u ∧ 0 < cfg.maxDepth)
  ∨ (u ∈ comp ∧ contentHtmlB cfg u = false ∧ v = notHtmlMsg cfg u)
  ∨ (u ∈ comp ∧ contentHtmlB cfg u = true ∧ fetchStatus cfg u ≠ 200 ∧
      v = httpErrMsg cfg u)
  ∨ (u ∈ comp ∧ contentHtmlB cfg u = true ∧ fetchStatus cfg u = 200 ∧
      (∃ e, v = "Processing Error: ValueError - " ++ e) ∧ 0 < cfg.maxDepth)

/-- The inductive invariant of the crawl loop. -/
structure Inv (cfg : CrawlCfg) (s : St) : Prop where
  nodupEnq : (s.enqLog.map Prod.fst).Nodup
  visitedEq : ∀ u, u ∈ s.visited ↔ u ∈ s.enqLog.map Prod.fst
  nodupVis : s.visited.Nodup
  counts : ∀ u, (s.queue.map Prod.fst).count u + (s.inFlight.map Prod.fst).count u
      + s.compLog.count u ≤ (s.enqLog.map Prod.fst).count u
  dispEq : ∀ u, s.dispLog.count u =
      (s.inFlight.map Prod.fst).count u + s.compLog.count u
  depths : ∀ p ∈ s.enqLog, p.2 ≤ cfg.maxDepth
  rootEnq : (cfg.root, 0) ∈ s.enqLog
  dispOk : ∀ u ∈ s.dispLog, robotsOK cfg u ∧
      ∃ p, urlparseE u ("") = Except.ok p ∧ extSkipB p.path = false
  htmlKeys : ∀ u v, s.html.lookup u = some v →
      u ∈ s.compLog ∧ contentHtmlB cfg u = true ∧ fetchStatus cfg u = 200
  errKeys : ∀ u v, s.errors.lookup u = some v →
      ErrSpec cfg (s.enqLog.map Prod.fst) s.compLog u v
  normKeys : ∀ p ∈ s.enqLog, NormShape cfg p.1 ∨ (p.1 = cfg.root ∧ p.2 = 0)
  depth0 : cfg.maxDepth = 0 → s.enqLog = [(cfg.root, 0)]

/-! ## Association-list lemmas -/

theorem lookup_upsert_self (l : List (String × String)) (k v : String) :
    (upsert l k v).lookup k = some v := by
  induction l with
  | nil => simp [upsert, List.lookup]
  | cons hd t ih =>
    obtain ⟨a, b⟩ := hd
    by_cases h : a = k
    · simp [upsert, h, List.lookup]
    · have hb : (k == a) = false := beq_eq_false_iff_ne.mpr (Ne.symm h)
      simp [upsert, h, List.lookup, hb, ih]

theorem lookup_upsert_ne (l : List (String × String)) (k v k' : String) (h : k' ≠ k) :
    (upsert l k v).lookup k' = l.lookup k' := by
  have hkk : (k' == k) = false := beq_eq_false_iff_ne.mpr h
  induction l with
  | nil => simp [upsert, List.lookup, hkk]
  | cons hd t ih =>
    obtain ⟨a, b⟩ := hd
    by_cases hak : a = k
    · subst hak
      simp [upsert, List.lookup, hkk]
    · by_cases hak' : k' = a
      · subst hak'
        simp [upsert, hak, List.lookup]
      · have hb : (k' == a) = false := beq_eq_false_iff_ne.mpr hak'
        simp [upsert, hak, List.lookup, hb, ih]

/-- Any binding in an upserted list is the new one or an old one. -/
theorem lookup_upsert_cases (l : List (String × String)) (k v k' : String) (w : String)
    (h : (upsert l k v).lookup k' = some w) :
    (k' = k ∧ w = v) ∨ l.lookup k' = some w := by
  by_cases hk : k' = k
  · subst hk
    rw [lookup_upsert_self] at h
    exact Or.inl ⟨rfl, (Option.some_inj.mp h).symm⟩
  · rw [lookup_upsert_ne l k v k' hk] at h
    exact Or.inr h

/-! ## Fetcher lemmas -/

/-- The loop on a successful attempt. -/
theorem fetchAux_eq_success (net : Nat → AttemptOutcome) (url : String) (rl b a : Nat)
    (s : Nat) (c : String) (hs : List (String × String)) (m : String)
    (ho : net a = .response s c hs m) (h1 : s < 400) :
    fetchAux net url rl b a =
      { status := s, body := c, headers := hs, attemptsMade := a + 1,
        sleeps := [], succeeded := true } := by
  unfold fetchAux
  conv_lhs => unfold fetchAuxR
  rw [ho]
  simp [h1]

/-- The loop on a non-retryable 4xx response (`break`). -/
theorem fetchAux_eq_break (net : Nat → AttemptOutcome) (url : String) (rl b a : Nat)
    (s : Nat) (c : String) (hs : List (String × String)) (m : String)
    (ho : net a = .response s c hs m) (h1 : ¬ s < 400)
    (h2 : 400 ≤ s ∧ s < 500 ∧ s ≠ 408 ∧ s ≠ 429) :
    fetchAux net url rl b a =
      { status := errorStatusOf (net a),
        body := errorMessageOf (net a) ++ " (for " ++ url ++ ")",
        headers := [], attemptsMade := a + 1, sleeps := [], succeeded := false } := by
  unfold fetchAux
  conv_lhs => unfold fetchAuxR
  rw [ho]
  simp [h1, h2, errorStatusOf]

/-- The loop on a retryable failure with retry budget left: sleep and
recurse. -/
theorem fetchAux_eq_retry (net : Nat → AttemptOutcome) (url : String) (rl b a : Nat)
    (h1 : isSuccessOutcome (net a) = false) (h2 : retryableFailure (net a) = true)
    (h3 : a < rl) :
    fetchAux net url rl b a =
      { fetchAux net url rl b (a + 1) with
        sleeps := b * 2 ^ a :: (fetchAux net url rl b (a + 1)).sleeps } := by
  have hr : rl - a = (rl - (a + 1)) + 1 := by omega
  unfold fetchAux
  rw [hr]
  conv_lhs => unfold fetchAuxR
  cases ho : net a with
  | response s c hs m =>
    rw [ho] at h1 h2
    simp only [isSuccessOutcome] at h1
    simp only [retryableFailure] at h2
    have hs400 : ¬ s < 400 := by
      intro hc
      simp [hc] at h1
    have hbr : ¬ (400 ≤ s ∧ s < 500 ∧ s ≠ 408 ∧ s ≠ 429) := by
      intro hc
      simp [hs400, hc] at h2
    simp [hs400, hbr, h3]
  | timeout => simp [h3]
  | connectionError n => simp [h3]
  | clientError n => simp [h3]
  | genericError n => simp [h3]

/-- The loop on a retryable failure with the retry budget exhausted. -/
theorem fetchAux_eq_exhaust (net : Nat → AttemptOutcome) (url : String) (rl b a : Nat)
    (h1 : isSuccessOutcome (net a) = false) (h2 : retryableFailure (net a) = true)
    (h3 : ¬ a < rl) :
    fetchAux net url rl b a =
      { status := errorStatusOf (net a),
        body := errorMessageOf (net a) ++ " (after " ++ toString (rl + 1) ++
          " attempts for " ++ url ++ ")",
        headers := [], attemptsMade := a + 1, sleeps := [], succeeded := false } := by
  have hr : rl - a = 0 := by omega
  unfold fetchAux
  rw [hr]
  conv_lhs => unfold fetchAuxR
  cases ho : net a with
  | response s c hs m =>
    rw [ho] at h1 h2
    simp only [isSuccessOutcome] at h1
    simp only [retryableFailure] at h2
    have hs400 : ¬ s < 400 := by
      intro hc
      simp [hc] at h1
    have hbr : ¬ (400 ≤ s ∧ s < 500 ∧ s ≠ 408 ∧ s ≠ 429) := by
      intro hc
      simp [hs400, hc] at h2
    simp [hs400, hbr, h3, errorStatusOf]
  | timeout => simp [h3]
  | connectionError n => simp [h3]
  | clientError n => simp [h3]
  | genericError n => simp [h3]

/-- Case analysis combining the four unfolding lemmas. -/
theorem fetchAux_shape (net : Nat → AttemptOutcome) (url : String) (rl b a : Nat) :
    (isSuccessOutcome (net a) = true ∧ ∃ s c hs m, net a = .response s c hs m ∧ s < 400 ∧
      fetchAux net url rl b a =
        { status := s, body := c, headers := hs, attemptsMade := a + 1,
          sleeps := [], succeeded := true })
  ∨ (isSuccessOutcome (net a) = false ∧ retryableFailure (net a) = false ∧
      fetchAux net url rl b a =
        { status := errorStatusOf (net a),
          body := errorMessageOf (net a) ++ " (for " ++ url ++ ")",
          headers := [], attemptsMade := a + 1, sleeps := [], succeeded := false })
  ∨ (isSuccessOutcome (net a) = false ∧ retryableFailure (net a) = true ∧ a < rl ∧
      fetchAux net url rl b a =
        { fetchAux net url rl b (a + 1) with
          sleeps := b * 2 ^ a :: (fetchAux net url rl b (a + 1)).sleeps })
  ∨ (isSuccessOutcome (net a) = false ∧ retryableFailure (net a) = true ∧ ¬ a < rl ∧
      fetchAux net url rl b a =
        { status := errorStatusOf (net a),
          body := errorMessageOf (net a) ++ " (after " ++ toString (rl + 1) ++
            " attempts for " ++ url ++ ")",
          headers := [], attemptsMade := a + 1, sleeps := [], succeeded := false }) := by
  by_cases hsucc : isSuccessOutcome (net a) = true
  · left
    refine ⟨hsucc, ?_⟩
    cases ho : net a with
    | response s c hs m =>
      rw [ho] at hsucc
      simp only [isSuccessOutcome, decide_eq_true_eq] at hsucc
      exact ⟨s, c, hs, m, rfl, hsucc, fetchAux_eq_success net url rl b a s c hs m ho hsucc⟩
    | timeout => rw [ho] at hsucc; simp [isSuccessOutcome] at hsucc
    | connectionError n => rw [ho] at hsucc; simp [isSuccessOutcome] at hsucc
    | clientError n => rw [ho] at hsucc; simp [isSuccessOutcome] at hsucc
    | genericError n => rw [ho] at hsucc; simp [isSuccessOutcome] at hsucc
  · right
    have hsucc' : isSuccessOutcome (net a) = false := by
      cases h : isSuccessOutcome (net a) with
      | true => exact absurd h hsucc
      | false => rfl
    by_cases hretry : retryableFailure (net a) = true
    · by_cases h3 : a < rl
      · exact Or.inr (Or.inl ⟨hsucc', hretry, h3,
          fetchAux_eq_retry net url rl b a hsucc' hretry h3⟩)
      · exact Or.inr (Or.inr ⟨hsucc', hretry, h3,
          fetchAux_eq_exhaust net url rl b a hsucc' hretry h3⟩)
    · have hretry' : retryableFailure (net a) = false := by
        cases h : retryableFailure (net a) with
        | true => exact absurd h hretry
        | false => rfl
      left
      refine ⟨hsucc', hretry', ?_⟩
      cases ho : net a with
      | response s c hs m =>
        rw [ho] at hsucc' hretry'
        simp only [isSuccessOutcome, decide_eq_false_iff_not] at hsucc'
        simp only [retryableFailure] at hretry'
        have h2 : 400 ≤ s ∧ s < 500 ∧ s ≠ 408 ∧ s ≠ 429 := by
          by_contra hc
          simp [hsucc', hc] at hretry'
        have hbr := fetchAux_eq_break net url rl b a s c hs m ho hsucc' h2
        rw [ho] at hbr
        exact hbr
      | timeout => rw [ho] at hretry'; simp [retryableFailure] at hretry'
      | connectionError n => rw [ho] at hretry'; simp [retryableFailure] at hretry'
      | clientError n => rw [ho] at hretry'; simp [retryableFailure] at hretry'
      | genericError n => rw [ho] at hretry'; simp [retryableFailure] at hretry'

/-- Every run makes at least one attempt. -/
theorem fetchAux_attempts_lb (net : Nat → AttemptOutcome) (url : String) (rl b : Nat) :
    ∀ a, a + 1 ≤ (fetchAux net url rl b a).attemptsMade := by
  suffices H : ∀ n a, rl - a = n → a + 1 ≤ (fetchAux net url rl b a).attemptsMade by
    intro a
    exact H (rl - a) a rfl
  intro n
  induction n with
  | zero =>
    intro a hn
    rcases fetchAux_shape net url rl b a with
      ⟨_, s, c, hs, m, _, _, heq⟩ | ⟨_, _, heq⟩ | ⟨_, _, h3, heq⟩ | ⟨_, _, _, heq⟩
    · rw [heq]
    · rw [heq]
    · omega
    · rw [heq]
  | succ n ih =>
    intro a hn
    rcases fetchAux_shape net url rl b a with
      ⟨_, s, c, hs, m, _, _, heq⟩ | ⟨_, _, heq⟩ | ⟨_, _, h3, heq⟩ | ⟨_, _, _, heq⟩
    · rw [heq]
    · rw [heq]
    · rw [heq]
      have := ih (a + 1) (by omega)
      show a + 1 ≤ (fetchAux net url rl b (a + 1)).attemptsMade
      omega
    · rw [heq]

/-- The loop makes at most `retry_limit + 1` attempts. -/
theorem fetchAux_attempts_ub (net : Nat → AttemptOutcome) (url : String) (rl b : Nat) :
    ∀ a, a ≤ rl → (fetchAux net url rl b a).attemptsMade ≤ rl + 1 := by
  suffices H : ∀ n a, rl - a = n → a ≤ rl →
      (fetchAux net url rl b a).attemptsMade ≤ rl + 1 by
    intro a ha
    exact H (rl - a) a rfl ha
  intro n
  induction n with
  | zero =>
    intro a hn ha
    rcases fetchAux_shape net url rl b a with
      ⟨_, s, c, hs, m, _, _, heq⟩ | ⟨_, _, heq⟩ | ⟨_, _, h3, heq⟩ | ⟨_, _, _, heq⟩
    · rw [heq]; show a + 1 ≤ rl + 1; omega
    · rw [heq]; show a + 1 ≤ rl + 1; omega
    · omega
    · rw [heq]; show a + 1 ≤ rl + 1; omega
  | succ n ih =>
    intro a hn ha
    rcases fetchAux_shape net url rl b a with
      ⟨_, s, c, hs, m, _, _, heq⟩ | ⟨_, _, heq⟩ | ⟨_, _, h3, heq⟩ | ⟨_, _, _, heq⟩
    · rw [heq]; show a + 1 ≤ rl + 1; omega
    · rw [heq]; show a + 1 ≤ rl + 1; omega
    · rw [heq]
      have := ih (a + 1) (by omega) (by omega)
      show (fetchAux net url rl b (a + 1)).attemptsMade ≤ rl + 1
      exact this
    · rw [heq]; show a + 1 ≤ rl + 1; omega

/-- The sleeps performed are exactly the exponential backoffs
`b * 2 ^ i` for the attempts `i` that were followed by a retry. -/
theorem fetchAux_sleeps (net : Nat → AttemptOutcome) (url : String) (rl b : Nat) :
    ∀ a, (fetchAux net url rl b a).sleeps =
      (List.range' a ((fetchAux net url rl b a).attemptsMade - 1 - a)).map
        (fun i => b * 2 ^ i) := by
  suffices H : ∀ n a, rl - a = n → (fetchAux net url rl b a).sleeps =
      (List.range' a ((fetchAux net url rl b a).attemptsMade - 1 - a)).map
        (fun i => b * 2 ^ i) by
    intro a
    exact H (rl - a) a rfl
  intro n
  induction n with
  | zero =>
    intro a hn
    rcases fetchAux_shape net url rl b a with
      ⟨_, s, c, hs, m, _, _, heq⟩ | ⟨_, _, heq⟩ | ⟨_, _, h3, heq⟩ | ⟨_, _, _, heq⟩
    · rw [heq]; simp
    · rw [heq]; simp
    · omega
    · rw [heq]; simp
  | succ n ih =>
    intro a hn
    rcases fetchAux_shape net url rl b a with
      ⟨_, s, c, hs, m, _, _, heq⟩ | ⟨_, _, heq⟩ | ⟨_, _, h3, heq⟩ | ⟨_, _, _, heq⟩
    · rw [heq]; simp
    · rw [heq]; simp
    · have hrec := ih (a + 1) (by omega)
      have hlb := fetchAux_attempts_lb net url rl b (a + 1)
      rw [heq]
      show b * 2 ^ a :: (fetchAux net url rl b (a + 1)).sleeps =
        (List.range' a ((fetchAux net url rl b (a + 1)).attemptsMade - 1 - a)).map
          (fun i => b * 2 ^ i)
      have hk : (fetchAux net url rl b (a + 1)).attemptsMade - 1 - a =
          ((fetchAux net url rl b (a + 1)).attemptsMade - 1 - (a + 1)) + 1 := by omega
      rw [hk, List.range'_succ, List.map_cons, hrec]
    · rw [heq]; simp

/-- Every attempt that was followed by another attempt failed retryably:
the code retries only on timeout, connection/client/unexpected exceptions,
and responses with status `≥ 500`, `408` or `429`. -/
theorem fetchAux_retries_only_retryable (net : Nat → AttemptOutcome) (url : String)
    (rl b : Nat) :
    ∀ a i, a ≤ i → i + 1 < (fetchAux net url rl b a).attemptsMade →
      retryableFailure (net i) = true := by
  suffices H : ∀ n a, rl - a = n → ∀ i, a ≤ i →
      i + 1 < (fetchAux net url rl b a).attemptsMade → retryableFailure (net i) = true by
    intro a i hai hlt
    exact H (rl - a) a rfl i hai hlt
  intro n
  induction n with
  | zero =>
    intro a hn i hai hlt
    rcases fetchAux_shape net url rl b a with
      ⟨_, s, c, hs, m, _, _, heq⟩ | ⟨_, _, heq⟩ | ⟨_, _, h3, heq⟩ | ⟨_, _, _, heq⟩
    · rw [heq] at hlt
      exact absurd (show i + 1 < a + 1 from hlt) (by omega)
    · rw [heq] at hlt
      exact absurd (show i + 1 < a + 1 from hlt) (by omega)
    · omega
    · rw [heq] at hlt
      exact absurd (show i + 1 < a + 1 from hlt) (by omega)
  | succ n ih =>
    intro a hn i hai hlt
    rcases fetchAux_shape net url rl b a with
      ⟨_, s, c, hs, m, _, _, heq⟩ | ⟨_, hr, heq⟩ | ⟨_, hr, h3, heq⟩ | ⟨_, _, _, heq⟩
    · rw [heq] at hlt
      exact absurd (show i + 1 < a + 1 from hlt) (by omega)
    · rw [heq] at hlt
      exact absurd (show i + 1 < a + 1 from hlt) (by omega)
    · rw [heq] at hlt
      have hlt' : i + 1 < (fetchAux net url rl b (a + 1)).attemptsMade := hlt
      rcases Nat.eq_or_lt_of_le hai with hia | hia
      · exact hia ▸ hr
      · exact ih (a + 1) (by omega) i hia hlt'
    · rw [heq] at hlt
      exact absurd (show i + 1 < a + 1 from hlt) (by omega)

/-- A run that did not return through the success path returns the
classified status of its last attempt, an empty header mapping, and the
formatted human-readable message of that attempt as the body. -/
theorem fetchAux_failure_char (net : Nat → AttemptOutcome) (url : String) (rl b : Nat) :
    ∀ a, (fetchAux net url rl b a).succeeded = false →
      (fetchAux net url rl b a).status =
        errorStatusOf (net ((fetchAux net url rl b a).attemptsMade - 1)) ∧
      (fetchAux net url rl b a).headers = [] ∧
      ((fetchAux net url rl b a).body =
          errorMessageOf (net ((fetchAux net url rl b a).attemptsMade - 1)) ++
            " (for " ++ url ++ ")" ∨
        (fetchAux net url rl b a).body =
          errorMessageOf (net ((fetchAux net url rl b a).attemptsMade - 1)) ++
            " (after " ++ toString (rl + 1) ++ " attempts for " ++ url ++ ")") := by
  suffices H : ∀ n a, rl - a = n → (fetchAux net url rl b a).succeeded = false →
      (fetchAux net url rl b a).status =
        errorStatusOf (net ((fetchAux net url rl b a).attemptsMade - 1)) ∧
      (fetchAux net url rl b a).headers = [] ∧
      ((fetchAux net url rl b a).body =
          errorMessageOf (net ((fetchAux net url rl b a).attemptsMade - 1)) ++
            " (for " ++ url ++ ")" ∨
        (fetchAux net url rl b a).body =
          errorMessageOf (net ((fetchAux net url rl b a).attemptsMade - 1)) ++
            " (after " ++ toString (rl + 1) ++ " attempts for " ++ url ++ ")") by
    intro a
    exact H (rl - a) a rfl
  intro n
  induction n with
  | zero =>
    intro a hn hf
    rcases fetchAux_shape net url rl b a with
      ⟨_, s, c, hs, m, _, _, heq⟩ | ⟨_, _, heq⟩ | ⟨_, _, h3, heq⟩ | ⟨_, _, _, heq⟩
    · rw [heq] at hf; simp at hf
    · rw [heq]; simp
    · omega
    · rw [heq]; simp
  | succ n ih =>
    intro a hn hf
    rcases fetchAux_shape net url rl b a with
      ⟨_, s, c, hs, m, _, _, heq⟩ | ⟨_, _, heq⟩ | ⟨_, _, h3, heq⟩ | ⟨_, _, _, heq⟩
    · rw [heq] at hf; simp at hf
    · rw [heq]; simp
    · rw [heq] at hf ⊢
      exact ih (a + 1) (by omega) hf
    · rw [heq]; simp

/-! ## Invariant preservation -/

theorem ErrSpec_mono (cfg : CrawlCfg) (enq comp enq' comp' : List String)
    (u v : String) (henq : ∀ x ∈ enq, x ∈ enq') (hcomp : ∀ x ∈ comp, x ∈ comp')
    (h : ErrSpec cfg enq comp u v) : ErrSpec cfg enq' comp' u v := by
  rcases h with ⟨h1, h2, h3⟩ | ⟨p, h1, h2, h3, h4, h5⟩ | h | ⟨h1, h2, h3⟩ |
    ⟨h1, h2, h3, h4⟩ | ⟨h1, h2, h3, h4, h5⟩
  · exact Or.inl ⟨h1, h2, henq u h3⟩
  · exact Or.inr (Or.inl ⟨p, h1, h2, h3, henq u h4, h5⟩)
  · exact Or.inr (Or.inr (Or.inl h))
  · exact Or.inr (Or.inr (Or.inr (Or.inl ⟨hcomp u h1, h2, h3⟩)))
  · exact Or.inr (Or.inr (Or.inr (Or.inr (Or.inl ⟨hcomp u h1, h2, h3, h4⟩))))
  · exact Or.inr (Or.inr (Or.inr (Or.inr (Or.inr ⟨hcomp u h1, h2, h3, h4, h5⟩))))

theorem mem_enq_of_mem_queue (cfg : CrawlCfg) (s : St) (h : Inv cfg s) (u : String)
    (hq : u ∈ s.queue.map Prod.fst) : u ∈ s.enqLog.map Prod.fst := by
  have hc := h.counts u
  have h1 : 0 < (s.queue.map Prod.fst).count u := List.count_pos_iff.mpr hq
  have h2 : 0 < (s.enqLog.map Prod.fst).count u := by omega
  exact List.count_pos_iff.mp h2

theorem mem_enq_of_mem_comp (cfg : CrawlCfg) (s : St) (h : Inv cfg s) (u : String)
    (hq : u ∈ s.compLog) : u ∈ s.enqLog.map Prod.fst := by
  have hc := h.counts u
  have h1 : 0 < s.compLog.count u := List.count_pos_iff.mpr hq
  have h2 : 0 < (s.enqLog.map Prod.fst).count u := by omega
  exact List.count_pos_iff.mp h2

theorem mem_disp_of_mem_comp (cfg : CrawlCfg) (s : St) (h : Inv cfg s) (u : String)
    (hq : u ∈ s.compLog) : u ∈ s.dispLog := by
  have hc := h.dispEq u
  have h1 : 0 < s.compLog.count u := List.count_pos_iff.mpr hq
  have h2 : 0 < s.dispLog.count u := by omega
  exact List.count_pos_iff.mp h2

/-- Writing an error binding that satisfies the error specification
preserves the invariant. -/
theorem Inv_upsert_error (cfg : CrawlCfg) (st : St) (u v : String) (h : Inv cfg st)
    (hspec : ErrSpec cfg (st.enqLog.map Prod.fst) st.compLog u v) :
    Inv cfg { st with errors := upsert st.errors u v } := by
  refine { nodupEnq := h.nodupEnq, visitedEq := h.visitedEq, nodupVis := h.nodupVis,
           counts := h.counts, dispEq := h.dispEq, depths := h.depths,
           rootEnq := h.rootEnq, dispOk := h.dispOk, htmlKeys := h.htmlKeys,
           errKeys := ?_, normKeys := h.normKeys, depth0 := h.depth0 }
  intro u' v' hl
  rcases lookup_upsert_cases st.errors u v u' v' hl with ⟨rfl, rfl⟩ | hold
  · exact hspec
  · exact h.errKeys u' v' hold

/-- Enqueuing a fresh normalized link preserves the invariant. -/
theorem Inv_enqueue (cfg : CrawlCfg) (st : St) (nl : String) (d : Nat) (h : Inv cfg st)
    (hnin : nl ∉ st.visited) (hdepth : d + 1 ≤ cfg.maxDepth)
    (hnorm : NormShape cfg nl) (hpos : 0 < cfg.maxDepth) :
    Inv cfg { st with visited := nl :: st.visited,
                      queue := st.queue ++ [(nl, d + 1)],
                      enqLog := (nl, d + 1) :: st.enqLog } := by
  have hnin2 : nl ∉ st.enqLog.map Prod.fst := fun hc => hnin ((h.visitedEq nl).mpr hc)
  refine { nodupEnq := ?_, visitedEq := ?_, nodupVis := ?_, counts := ?_,
           dispEq := h.dispEq, depths := ?_, rootEnq := List.mem_cons_of_mem _ h.rootEnq,
           dispOk := h.dispOk, htmlKeys := h.htmlKeys, errKeys := ?_,
           normKeys := ?_, depth0 := ?_ }
  · rw [List.map_cons]
    exact List.nodup_cons.mpr ⟨hnin2, h.nodupEnq⟩
  · intro u
    simp only [List.map_cons, List.mem_cons]
    constructor
    · rintro (rfl | hu)
      · exact Or.inl rfl
      · exact Or.inr ((h.visitedEq u).mp hu)
    · rintro (rfl | hu)
      · exact Or.inl rfl
      · exact Or.inr ((h.visitedEq u).mpr hu)
  · exact List.Nodup.cons hnin h.nodupVis
  · intro u
    have hc := h.counts u
    simp only [List.map_append, List.map_cons, List.count_append, List.count_cons]
    simp only [List.map_nil, List.count_nil]
    by_cases he : nl = u
    · subst he
      simp only [beq_self_eq_true, if_true]
      omega
    · have hb : ((nl : String) == u) = false := beq_eq_false_iff_ne.mpr he
      simp only [hb, if_false]
      omega
  · intro p hp
    rcases List.mem_cons.mp hp with rfl | hp'
    · exact hdepth
    · exact h.depths p hp'
  · intro u' v' hl
    refine ErrSpec_mono cfg (st.enqLog.map Prod.fst) st.compLog _ _ u' v' ?_ ?_
      (h.errKeys u' v' hl)
    · intro x hx
      simp only [List.map_cons, List.mem_cons]
      exact Or.inr hx
    · intro x hx
      exact hx
  · intro p hp
    rcases List.mem_cons.mp hp with rfl | hp'
    · exact Or.inl hnorm
    · exact h.normKeys p hp'
  · intro h0
    omega

/-- Link expansion touches only `queue`, `visited`, `enqLog` and `errors`. -/
theorem expandLinks_fields (cfg : CrawlCfg) (u : String) (d : Nat) :
    ∀ hrefs st, (expandLinks cfg u d hrefs st).inFlight = st.inFlight ∧
      (expandLinks cfg u d hrefs st).compLog = st.compLog ∧
      (expandLinks cfg u d hrefs st).dispLog = st.dispLog ∧
      (expandLinks cfg u d hrefs st).html = st.html := by
  intro hrefs
  induction hrefs with
  | nil =>
    intro st
    exact ⟨rfl, rfl, rfl, rfl⟩
  | cons href rest ih =>
    intro st
    simp only [expandLinks]
    split
    · exact ih st
    · split
      · exact ⟨rfl, rfl, rfl, rfl⟩
      · split
        · exact ⟨rfl, rfl, rfl, rfl⟩
        · split
          · exact ih st
          · split
            · split
              · split
                · exact ih _
                · split
                  · exact ih st
                  · exact ih _
              · split
                · exact ih st
                · exact ih _
            · exact ih st

/-- Any error binding present after link expansion was present before, or
is a discovery-time robots skip, or a processing error. -/
theorem expandLinks_errors_new (cfg : CrawlCfg) (u : String) (d : Nat) :
    ∀ hrefs st u' v, (expandLinks cfg u d hrefs st).errors.lookup u' = some v →
      st.errors.lookup u' = some v ∨ v = "Skipped by robots.txt (discovered link)" ∨
      ∃ e, v = "Processing Error: ValueError - " ++ e := by
  intro hrefs
  induction hrefs with
  | nil =>
    intro st u' v hl
    exact Or.inl hl
  | cons href rest ih =>
    intro st u' v hl
    rw [expandLinks] at hl
    revert hl
    split
    · intro hl
      exact ih st u' v hl
    · split
      · intro hl
        rcases lookup_upsert_cases st.errors u _ u' v hl with ⟨rfl, rfl⟩ | hold
        · exact Or.inr (Or.inr ⟨_, rfl⟩)
        · exact Or.inl hold
      · split
        · intro hl
          rcases lookup_upsert_cases st.errors u _ u' v hl with ⟨rfl, rfl⟩ | hold
          · exact Or.inr (Or.inr ⟨_, rfl⟩)
          · exact Or.inl hold
        · split
          · intro hl
            exact ih st u' v hl
          · split
            · split
              · split
                · intro hl
                  rcases ih _ u' v hl with hold | hnew
                  · rcases lookup_upsert_cases st.errors _ _ u' v hold with ⟨rfl, rfl⟩ | h2
                    · exact Or.inr (Or.inl rfl)
                    · exact Or.inl h2
                  · exact Or.inr hnew
                · split
                  · intro hl
                    exact ih st u' v hl
                  · intro hl
                    rcases ih _ u' v hl with hold | hnew
                    · exact Or.inl hold
                    · exact Or.inr hnew
              · split
                · intro hl
                  exact ih st u' v hl
                · intro hl
                  rcases ih _ u' v hl with hold | hnew
                  · exact Or.inl hold
                  · exact Or.inr hnew
            · intro hl
              exact ih st u' v hl

/-- Link expansion preserves the invariant (for a completed page `u` whose
fetch was a 200 HTML response, expanded because `d < max_depth`). -/
theorem expandLinks_inv (cfg : CrawlCfg) (u : String) (d : Nat)
    (hd : d < cfg.maxDepth) (hct : contentHtmlB cfg u = true)
    (hst : fetchStatus cfg u = 200) :
    ∀ hrefs st, Inv cfg st → u ∈ st.compLog →
      Inv cfg (expandLinks cfg u d hrefs st) := by
  intro hrefs
  induction hrefs with
  | nil =>
    intro st hInv hcomp
    exact hInv
  | cons href rest ih =>
    intro st hInv hcomp
    simp only [expandLinks]
    split
    · exact ih st hInv hcomp
    · split
      · exact Inv_upsert_error cfg st u _ hInv
          (Or.inr (Or.inr (Or.inr (Or.inr (Or.inr
            ⟨hcomp, hct, hst, ⟨_, rfl⟩, by omega⟩)))))
      · split
        · exact Inv_upsert_error cfg st u _ hInv
            (Or.inr (Or.inr (Or.inr (Or.inr (Or.inr
              ⟨hcomp, hct, hst, ⟨_, rfl⟩, by omega⟩)))))
        · split
          · exact ih st hInv hcomp
          · rename_i pl hparse hext
            split
            · rename_i hnb
              split
              · rename_i cf hrob
                split
                · rename_i hcf
                  refine ih _ ?_ hcomp
                  refine Inv_upsert_error cfg st _ _ hInv ?_
                  refine Or.inr (Or.inr (Or.inl ⟨rfl, ⟨cf, hrob, hcf⟩, ?_, by omega⟩))
                  exact ⟨{ pl with fragment := "" }, rfl, hnb.1, hnb.2, rfl⟩
                · split
                  · exact ih st hInv hcomp
                  · rename_i hvis
                    refine ih _ ?_ hcomp
                    exact Inv_enqueue cfg st _ d hInv hvis (by omega)
                      ⟨{ pl with fragment := "" }, rfl, hnb.1, hnb.2, rfl⟩ (by omega)
              · split
                · exact ih st hInv hcomp
                · rename_i hvis
                  refine ih _ ?_ hcomp
                  exact Inv_enqueue cfg st _ d hInv hvis (by omega)
                    ⟨{ pl with fragment := "" }, rfl, hnb.1, hnb.2, rfl⟩ (by omega)
            · exact ih st hInv hcomp

/-- Recording a fetched body preserves the invariant. -/
theorem Inv_upsert_html (cfg : CrawlCfg) (st : St) (u : String) (tb : Nat)
    (h : Inv cfg st) (hcomp : u ∈ st.compLog) (hct : contentHtmlB cfg u = true)
    (hst : fetchStatus cfg u = 200) :
    Inv cfg { st with html := upsert st.html u (fetchBody cfg u), totalBytes := tb } := by
  refine { nodupEnq := h.nodupEnq, visitedEq := h.visitedEq, nodupVis := h.nodupVis,
           counts := h.counts, dispEq := h.dispEq, depths := h.depths,
           rootEnq := h.rootEnq, dispOk := h.dispOk, htmlKeys := ?_,
           errKeys := h.errKeys, normKeys := h.normKeys, depth0 := h.depth0 }
  intro u' v' hl
  rcases lookup_upsert_cases st.html u _ u' v' hl with ⟨rfl, rfl⟩ | hold
  · exact ⟨hcomp, hct, hst⟩
  · exact h.htmlKeys u' v' hold

/-- `process_single_url` preserves the invariant for a completed task. -/
theorem processSingleUrl_inv (cfg : CrawlCfg) (u : String) (d : Nat) (st : St)
    (hcomp : u ∈ st.compLog) (hInv : Inv cfg st) :
    Inv cfg (processSingleUrl cfg u d st) := by
  rw [processSingleUrl]
  split
  · rename_i hct
    exact Inv_upsert_error cfg st u _ hInv
      (Or.inr (Or.inr (Or.inr (Or.inl ⟨hcomp, hct, rfl⟩))))
  · rename_i hctne
    have hct : contentHtmlB cfg u = true := by
      revert hctne
      cases contentHtmlB cfg u <;> simp
    split
    · rename_i hst
      split
      · rename_i hd
        exact expandLinks_inv cfg u d hd hct hst (cfg.anchors u) _
          (Inv_upsert_html cfg st u _ hInv hcomp hct hst) hcomp
      · exact Inv_upsert_html cfg st u _ hInv hcomp hct hst
    · rename_i hstne
      exact Inv_upsert_error cfg st u _ hInv
        (Or.inr (Or.inr (Or.inr (Or.inr (Or.inl ⟨hcomp, hct, hstne, rfl⟩)))))

/-- Popping the queue head preserves the invariant. -/
theorem Inv_pop_queue (cfg : CrawlCfg) (s : St) (u : String) (d : Nat)
    (rest : List (String × Nat)) (hq : s.queue = (u, d) :: rest) (h : Inv cfg s) :
    Inv cfg { s with queue := rest } := by
  refine { nodupEnq := h.nodupEnq, visitedEq := h.visitedEq, nodupVis := h.nodupVis,
           counts := ?_, dispEq := h.dispEq, depths := h.depths,
           rootEnq := h.rootEnq, dispOk := h.dispOk, htmlKeys := h.htmlKeys,
           errKeys := h.errKeys, normKeys := h.normKeys, depth0 := h.depth0 }
  intro u'
  have hc := h.counts u'
  rw [hq] at hc
  show (rest.map Prod.fst).count u' + (s.inFlight.map Prod.fst).count u'
      + s.compLog.count u' ≤ (s.enqLog.map Prod.fst).count u'
  simp only [List.map_cons, List.count_cons] at hc
  omega

/-- Every step of the crawl loop preserves the invariant. -/
theorem step_inv (cfg : CrawlCfg) (s s' : St) (hs : Step cfg s s') (hInv : Inv cfg s) :
    Inv cfg s' := by
  cases hs with
  | dequeueRobots u d rest cf hq hrob hcf =>
    have hmemq : u ∈ s.queue.map Prod.fst := by rw [hq]; simp
    have henq : u ∈ s.enqLog.map Prod.fst := mem_enq_of_mem_queue cfg s hInv u hmemq
    exact Inv_upsert_error cfg { s with queue := rest } u _
      (Inv_pop_queue cfg s u d rest hq hInv)
      (Or.inl ⟨rfl, ⟨cf, hrob, hcf⟩, henq⟩)
  | dequeueExt u d rest p hq hrob hp hext =>
    have hmemq : u ∈ s.queue.map Prod.fst := by rw [hq]; simp
    have henq : u ∈ s.enqLog.map Prod.fst := mem_enq_of_mem_queue cfg s hInv u hmemq
    exact Inv_upsert_error cfg { s with queue := rest } u _
      (Inv_pop_queue cfg s u d rest hq hInv)
      (Or.inr (Or.inl ⟨p, hp, hext, rfl, henq, hrob⟩))
  | dispatch u d rest p hq hrob hp hext hcap =>
    refine { nodupEnq := hInv.nodupEnq, visitedEq := hInv.visitedEq,
             nodupVis := hInv.nodupVis, counts := ?_, dispEq := ?_,
             depths := hInv.depths, rootEnq := hInv.rootEnq, dispOk := ?_,
             htmlKeys := hInv.htmlKeys, errKeys := hInv.errKeys,
             normKeys := hInv.normKeys, depth0 := hInv.depth0 }
    · intro u'
      have hc := hInv.counts u'
      rw [hq] at hc
      show (rest.map Prod.fst).count u'
          + ((s.inFlight ++ [(u, d)]).map Prod.fst).count u'
          + s.compLog.count u' ≤ (s.enqLog.map Prod.fst).count u'
      simp only [List.map_cons, List.count_cons, List.map_append, List.count_append,
        List.map_nil, List.count_nil] at hc ⊢
      omega
    · intro u'
      have hc := hInv.dispEq u'
      show (u :: s.dispLog).count u'
          = ((s.inFlight ++ [(u, d)]).map Prod.fst).count u' + s.compLog.count u'
      simp only [List.count_cons, List.map_append, List.count_append, List.map_cons,
        List.map_nil, List.count_nil]
      omega
    · intro u' hu'
      rcases List.mem_cons.mp hu' with rfl | hu''
      · exact ⟨hrob, p, hp, hext⟩
      · exact hInv.dispOk u' hu''
  | complete u d l1 l2 hfl =>
    have hmid : Inv cfg { s with inFlight := l1 ++ l2, compLog := u :: s.compLog } := by
      refine { nodupEnq := hInv.nodupEnq, visitedEq := hInv.visitedEq,
               nodupVis := hInv.nodupVis, counts := ?_, dispEq := ?_,
               depths := hInv.depths, rootEnq := hInv.rootEnq, dispOk := hInv.dispOk,
               htmlKeys := ?_, errKeys := ?_, normKeys := hInv.normKeys,
               depth0 := hInv.depth0 }
      · intro u'
        have hc := hInv.counts u'
        rw [hfl] at hc
        show (s.queue.map Prod.fst).count u' + ((l1 ++ l2).map Prod.fst).count u'
            + (u :: s.compLog).count u' ≤ (s.enqLog.map Prod.fst).count u'
        simp only [List.map_append, List.count_append, List.map_cons,
          List.count_cons] at hc ⊢
        omega
      · intro u'
        have hc := hInv.dispEq u'
        rw [hfl] at hc
        show s.dispLog.count u'
            = ((l1 ++ l2).map Prod.fst).count u' + (u :: s.compLog).count u'
        simp only [List.map_append, List.count_append, List.map_cons,
          List.count_cons] at hc ⊢
        omega
      · intro u' v' hl
        obtain ⟨h1, h2, h3⟩ := hInv.htmlKeys u' v' hl
        exact ⟨List.mem_cons_of_mem _ h1, h2, h3⟩
      · intro u' v' hl
        refine ErrSpec_mono cfg (s.enqLog.map Prod.fst) s.compLog _ _ u' v'
          (fun x hx => hx) (fun x hx => List.mem_cons_of_mem _ hx)
          (hInv.errKeys u' v' hl)
    exact processSingleUrl_inv cfg u d _ (List.mem_cons_self u s.compLog) hmid

/-- The seeded initial state satisfies the invariant. -/
theorem Inv_init (cfg : CrawlCfg) : Inv cfg (initSt cfg.root) := by
  refine { nodupEnq := ?_, visitedEq := ?_, nodupVis := ?_, counts := ?_,
           dispEq := ?_, depths := ?_, rootEnq := ?_, dispOk := ?_,
           htmlKeys := ?_, errKeys := ?_, normKeys := ?_, depth0 := ?_ }
  · simp [initSt]
  · intro u
    simp [initSt]
  · simp [initSt]
  · intro u
    simp [initSt]
  · intro u
    simp [initSt]
  · intro p hp
    simp only [initSt, List.mem_singleton] at hp
    subst hp
    exact Nat.zero_le _
  · simp [initSt]
  · intro u hu
    simp [initSt] at hu
  · intro u v hl
    simp [initSt, List.lookup] at hl
  · intro u v hl
    simp [initSt, List.lookup] at hl
  · intro p hp
    simp only [initSt, List.mem_singleton] at hp
    subst hp
    exact Or.inr ⟨rfl, rfl⟩
  · intro h0
    rfl

/-- The invariant holds in every reachable state. -/
theorem reachable_inv (cfg : CrawlCfg) (s : St) (h : Reachable cfg s) : Inv cfg s := by
  induction h with
  | refl => exact Inv_init cfg
  | tail hab hbc ih => exact step_inv cfg _ _ hbc ih

/-! ## Concrete traces -/

/-- Dispatching and completing the root task is a valid two-step run. -/
theorem reach_postRoot (cfg : CrawlCfg) (p : ParseRes)
    (hparse : urlparseE cfg.root ("") = Except.ok p)
    (hext : extSkipB p.path = false) (hrob : robotsOK cfg cfg.root)
    (hcap : 0 < cfg.maxConc) : Reachable cfg (postRootSt cfg) := by
  have h1 := @Step.dispatch cfg (initSt cfg.root) cfg.root 0 [] p rfl hrob
    hparse hext (by simpa [initSt] using hcap)
  have h2 := @Step.complete cfg
    { queue := [], visited := [cfg.root], inFlight := [(cfg.root, 0)], html := [],
      errors := [], totalBytes := 0, enqLog := [(cfg.root, 0)],
      dispLog := [cfg.root], compLog := [] } cfg.root 0 [] [] rfl
  exact Relation.ReflTransGen.tail
    (Relation.ReflTransGen.tail Relation.ReflTransGen.refl h1) h2

theorem reach_cfgC1 : Reachable cfgC1 (postRootSt cfgC1) :=
  reach_postRoot cfgC1 pRoot rfl (by decide) (fun cf h => Option.noConfusion h)
    (by decide)

theorem reach_cfgC7 : Reachable cfgC7 (postRootSt cfgC7) :=
  reach_postRoot cfgC7 pRoot rfl (by decide) (fun cf h => Option.noConfusion h)
    (by decide)

theorem reach_cfgC8 : Reachable cfgC8 (postRootSt cfgC8) :=
  reach_postRoot cfgC8 pRoot rfl (by decide)
    (fun cf h => (Option.some.inj h) ▸ (by decide)) (by decide)

theorem reach_cfgC9 : Reachable cfgC9 (postRootSt cfgC9) :=
  reach_postRoot cfgC9 pC9 rfl (by decide) (fun cf h => Option.noConfusion h)
    (by decide)

/-! ## Claims -/

/-- C1, counterexample: the key sets of `html_contents` and `errors` are
not always disjoint.  In the crawl `cfgC1`, the root page is fetched as a
200 HTML response (so its body is recorded in `html_contents`), and a
subsequent anchor `"http://["` makes `urljoin` raise `ValueError` during
expansion, which the per-task exception handler records in `errors` under
the same URL.  The final (terminal) state holds the root URL in both
mappings. -/
theorem C1_counterexample :
    Reachable cfgC1 (postRootSt cfgC1) ∧ Terminal (postRootSt cfgC1) ∧
    (postRootSt cfgC1).html.lookup ("http://a.com/") = some ("<html>") ∧
    (postRootSt cfgC1).errors.lookup ("http://a.com/")
      = some ("Processing Error: ValueError - Invalid IPv6 URL") :=
  ⟨reach_cfgC1, ⟨rfl, rfl⟩, rfl, rfl⟩

/-- C1, amended: in every reachable crawl state, a URL that appears in
both `html_contents` and `errors` carries a processing-error message in
`errors` (a `ValueError` raised during link expansion after the body was
recorded); apart from this case the two key sets are disjoint. -/
theorem C1_amended : ∀ (cfg : CrawlCfg) (s : St), Reachable cfg s →
    ∀ u w v, s.html.lookup u = some w → s.errors.lookup u = some v →
    ∃ e, v = "Processing Error: ValueError - " ++ e := by
  intro cfg s hs u w v hh he
  have hInv := reachable_inv cfg s hs
  obtain ⟨hcomp, hct, hst⟩ := hInv.htmlKeys u w hh
  have hdisp : u ∈ s.dispLog := mem_disp_of_mem_comp cfg s hInv u hcomp
  obtain ⟨hrobOK, q, hq, hqext⟩ := hInv.dispOk u hdisp
  rcases hInv.errKeys u v he with ⟨h1, ⟨cf, hr, hcf⟩, h3⟩ | ⟨p, hp, hext, h3, h4, h5⟩ |
    ⟨h1, ⟨cf, hr, hcf⟩, h3, h4⟩ | ⟨h1, h2, h3⟩ | ⟨h1, h2, h3, h4⟩ | ⟨h1, h2, h3, h4, h5⟩
  · exact absurd (hrobOK cf hr) (by simp [hcf])
  · rw [hq] at hp
    have hqp := Except.ok.inj hp
    rw [← hqp] at hext
    exact absurd hext (by simp [hqext])
  · exact absurd (hrobOK cf hr) (by simp [hcf])
  · rw [hct] at h2
    exact absurd h2 (by simp)
  · exact absurd hst h3
  · exact h4

theorem C1_amended_witness :
    ∃ e, ("Processing Error: ValueError - Invalid IPv6 URL" : String)
      = "Processing Error: ValueError - " ++ e :=
  C1_amended cfgC1 (postRootSt cfgC1) reach_cfgC1 ("http://a.com/") ("<html>")
    ("Processing Error: ValueError - Invalid IPv6 URL") rfl rfl

/-- C2: `fetch_url_content` never raises — it is a total function into
`(status, body, headers)` triples — and every run that does not return
through the success path reports the classified status of its last
attempt (timeout ↦ 408, connection error ↦ 503, client error ↦ 503,
unclassified exception ↦ 500, HTTP error ↦ its own status) with the
formatted human-readable message of that attempt as the body. -/
theorem C2_fetch_failure_mapping :
    (∀ (net : Nat → AttemptOutcome) (url : String) (rl b : Nat),
      (fetch_url_content net url rl b).succeeded = false →
        (fetch_url_content net url rl b).status =
          errorStatusOf (net ((fetch_url_content net url rl b).attemptsMade - 1)) ∧
        (fetch_url_content net url rl b).headers = [] ∧
        ((fetch_url_content net url rl b).body =
            errorMessageOf (net ((fetch_url_content net url rl b).attemptsMade - 1)) ++
              " (for " ++ url ++ ")" ∨
          (fetch_url_content net url rl b).body =
            errorMessageOf (net ((fetch_url_content net url rl b).attemptsMade - 1)) ++
              " (after " ++ toString (rl + 1) ++ " attempts for " ++ url ++ ")")) ∧
    errorStatusOf .timeout = 408 ∧
    (∀ n, errorStatusOf (.connectionError n) = 503) ∧
    (∀ n, errorStatusOf (.genericError n) = 500) := by
  refine ⟨?_, rfl, fun n => rfl, fun n => rfl⟩
  intro net url rl b hf
  exact fetchAux_failure_char net url rl b 0 hf

theorem C2_fetch_failure_mapping_witness :
    (fetch_url_content netTimeout ("http://e.com/") 0 100).status = 408 ∧
    (fetch_url_content netTimeout ("http://e.com/") 0 100).headers = [] := by
  have h := C2_fetch_failure_mapping.1 netTimeout ("http://e.com/") 0 100 rfl
  exact ⟨h.1, h.2.1⟩

/-- C3, counterexample: the claim says a 4xx response other than 429 is
returned immediately without retrying, but the code also retries HTTP 408
responses (`e.status != 408` in the non-retry test): with
`retry_limit = 1` against a server that always answers 408, two attempts
are made with one backoff sleep. -/
theorem C3_counterexample :
    (400 ≤ 408 ∧ 408 < 500 ∧ 408 ≠ 429) ∧
    (fetch_url_content net408 ("http://e.com/") 1 100).attemptsMade = 2 ∧
    (fetch_url_content net408 ("http://e.com/") 1 100).sleeps = [100] :=
  ⟨by decide, by decide, by decide⟩

/-- C3, amended: `fetch_url_content` makes at most `retry_limit` extra
attempts after the first; before retry `i` (counting from 0) it sleeps
`backoff_base_ms × 2^i` milliseconds; and an attempt is followed by a
retry only when its outcome was retryable — a timeout, a connection or
client or unclassified exception, or a response with status ≥ 500, 429 or
408.  Other 4xx responses (and successes) end the loop immediately. -/
theorem C3_amended : ∀ (net : Nat → AttemptOutcome) (url : String) (rl b : Nat),
    (fetch_url_content net url rl b).attemptsMade ≤ rl + 1 ∧
    (fetch_url_content net url rl b).sleeps =
      (List.range ((fetch_url_content net url rl b).attemptsMade - 1)).map
        (fun i => b * 2 ^ i) ∧
    (∀ i, i + 1 < (fetch_url_content net url rl b).attemptsMade →
      retryableFailure (net i) = true) := by
  intro net url rl b
  refine ⟨fetchAux_attempts_ub net url rl b 0 (Nat.zero_le rl), ?_, ?_⟩
  · have h := fetchAux_sleeps net url rl b 0
    unfold fetch_url_content
    rw [List.range_eq_range']
    simpa using h
  · intro i hi
    exact fetchAux_retries_only_retryable net url rl b 0 i (Nat.zero_le i) hi

theorem C3_amended_witness :
    (fetch_url_content netFlaky ("http://e.com/") 2 50).attemptsMade ≤ 3 ∧
    retryableFailure (netFlaky 0) = true :=
  ⟨(C3_amended netFlaky ("http://e.com/") 2 50).1,
    (C3_amended netFlaky ("http://e.com/") 2 50).2.2 0 (by decide)⟩

/-- C4: for every `root_url` whose parse lacks a scheme or a host, `crawl`
returns immediately — before any fetch work — a result whose `errors`
holds exactly one entry keyed by the original `root_url` string, whose
`html_contents` is empty, and whose `elapsed_ms` is nonnegative (the
event-loop clock is monotone). -/
theorem C4_invalid_root : ∀ (clock : Nat → Nat) (root_url : String) (p : ParseRes),
    urlparseE root_url ("") = Except.ok p → (p.scheme = "" ∨ p.netloc = "") →
    clock 0 ≤ clock 1 →
    crawlStart clock root_url
      = Except.ok (Sum.inl (crawlInvalidResult clock root_url)) ∧
    (crawlInvalidResult clock root_url).errors
      = [(root_url, "Invalid root_url: Must be absolute.")] ∧
    (crawlInvalidResult clock root_url).html_contents = [] ∧
    0 ≤ elapsed_ms (crawlInvalidResult clock root_url) := by
  intro clock root_url p hp hbad hcl
  refine ⟨?_, rfl, rfl, ?_⟩
  · simp only [crawlStart, hp]
    rw [if_pos hbad]
    rfl
  · unfold elapsed_ms crawlInvalidResult
    split
    · have hle : (clock 0 : Int) ≤ (clock 1 : Int) := Int.ofNat_le.mpr hcl
      have : (0 : Int) ≤ (clock 1 : Int) - (clock 0 : Int) := by omega
      exact mul_nonneg this (by norm_num)
    · exact le_refl 0

theorem C4_invalid_root_witness :
    crawlStart (fun i => i + 5) ("not-a-url")
      = Except.ok (Sum.inl (crawlInvalidResult (fun i => i + 5) ("not-a-url"))) ∧
    0 ≤ elapsed_ms (crawlInvalidResult (fun i => i + 5) ("not-a-url")) := by
  have h := C4_invalid_root (fun i => i + 5) ("not-a-url")
    { scheme := "", netloc := "", path := "not-a-url", params := "", query := "",
      fragment := "" } rfl (Or.inl rfl) (by decide)
  exact ⟨h.1, h.2.2.2⟩

/-- C5: within one crawl, the enqueue log never repeats a URL (each
normalized URL is enqueued at most once), the visited set never holds a
URL twice, and at most one fetch attempt-sequence is dispatched per URL —
so a cyclic page graph cannot cause duplicate fetch work. -/
theorem C5_enqueued_once : ∀ (cfg : CrawlCfg) (s : St), Reachable cfg s →
    (s.enqLog.map Prod.fst).Nodup ∧ s.visited.Nodup ∧
    ∀ u, s.dispLog.count u ≤ 1 := by
  intro cfg s hs
  have hInv := reachable_inv cfg s hs
  refine ⟨hInv.nodupEnq, hInv.nodupVis, ?_⟩
  intro u
  have h1 := hInv.counts u
  have h2 := hInv.dispEq u
  have h3 : (s.enqLog.map Prod.fst).count u ≤ 1 :=
    List.nodup_iff_count_le_one.mp hInv.nodupEnq u
  omega

theorem C5_enqueued_once_witness :
    ((initSt cfgC9.root).enqLog.map Prod.fst).Nodup ∧
    (initSt cfgC9.root).dispLog.count ("http://a.com/x#frag") ≤ 1 :=
  ⟨(C5_enqueued_once cfgC9 (initSt cfgC9.root) Relation.ReflTransGen.refl).1,
    (C5_enqueued_once cfgC9 (initSt cfgC9.root) Relation.ReflTransGen.refl).2.2
      ("http://a.com/x#frag")⟩

/-- C6: every task ever enqueued satisfies `depth ≤ max_depth` and the
root is enqueued at depth 0; a completed page is expanded only when its
depth is strictly below `max_depth` (at `¬ d < max_depth` the processing
of a task leaves the frontier and the enqueue log unchanged — fetched but
not expanded); and for `max_depth = 0` every key of `html_contents` and
of `errors` is the root URL, so no expansion-derived entry appears in any
output mapping. -/
theorem C6_depth_bound : ∀ (cfg : CrawlCfg) (s : St), Reachable cfg s →
    (∀ p ∈ s.enqLog, p.2 ≤ cfg.maxDepth) ∧ (cfg.root, 0) ∈ s.enqLog ∧
    (∀ u d st, ¬ d < cfg.maxDepth →
      (processSingleUrl cfg u d st).queue = st.queue ∧
      (processSingleUrl cfg u d st).enqLog = st.enqLog) ∧
    (cfg.maxDepth = 0 →
      (∀ u v, s.html.lookup u = some v → u = cfg.root) ∧
      (∀ u v, s.errors.lookup u = some v → u = cfg.root)) := by
  intro cfg s hs
  have hInv := reachable_inv cfg s hs
  refine ⟨hInv.depths, hInv.rootEnq, ?_, ?_⟩
  · intro u d st hd
    rw [processSingleUrl]
    split
    · exact ⟨rfl, rfl⟩
    · split
      · exact ⟨rfl, rfl⟩
      · exact ⟨rfl, rfl⟩
  · intro h0
    have henq := hInv.depth0 h0
    constructor
    · intro u v hh
      have hcomp := (hInv.htmlKeys u v hh).1
      have hu := mem_enq_of_mem_comp cfg s hInv u hcomp
      rw [henq] at hu
      simpa using hu
    · intro u v he
      rcases hInv.errKeys u v he with ⟨_, _, h3⟩ | ⟨p, _, _, _, h4, _⟩ |
        ⟨_, _, _, h4⟩ | ⟨h1, _, _⟩ | ⟨h1, _, _, _⟩ | ⟨h1, _, _, _, _⟩
      · rw [henq] at h3
        simpa using h3
      · rw [henq] at h4
        simpa using h4
      · omega
      · have hu := mem_enq_of_mem_comp cfg s hInv u h1
        rw [henq] at hu
        simpa using hu
      · have hu := mem_enq_of_mem_comp cfg s hInv u h1
        rw [henq] at hu
        simpa using hu
      · have hu := mem_enq_of_mem_comp cfg s hInv u h1
        rw [henq] at hu
        simpa using hu

theorem C6_depth_bound_witness :
    (cfgC9.root, 0) ∈ (postRootSt cfgC9).enqLog ∧
    (processSingleUrl cfgC9 ("http://a.com/x#frag") 0 (initSt cfgC9.root)).queue
      = (initSt cfgC9.root).queue ∧
    ("http://a.com/x#frag" : String) = cfgC9.root :=
  ⟨(C6_depth_bound cfgC9 (postRootSt cfgC9) reach_cfgC9).2.1,
    ((C6_depth_bound cfgC9 (postRootSt cfgC9) reach_cfgC9).2.2.1
      ("http://a.com/x#frag") 0 (initSt cfgC9.root) (by decide)).1,
    ((C6_depth_bound cfgC9 (postRootSt cfgC9) reach_cfgC9).2.2.2 rfl).1
      ("http://a.com/x#frag") ("<html>") rfl⟩

/-- C7, counterexample: a discovered `.png` link is indeed never
dispatched, but the crawl records no entry for it.  In `cfgC7` the root
page links to `/img.png`; the completed, terminal crawl state has the root
body in `html_contents`, an empty `errors` mapping (no skip-related
entry), and only the root in the dispatch log — the discovery-time
extension skip at lines 279-281 `continue`s without touching `errors`. -/
theorem C7_counterexample :
    Reachable cfgC7 (postRootSt cfgC7) ∧ Terminal (postRootSt cfgC7) ∧
    cfgC7.anchors ("http://a.com/") = ["/img.png"] ∧
    (postRootSt cfgC7).html.lookup ("http://a.com/") = some ("<html>") ∧
    (postRootSt cfgC7).errors = [] ∧
    (postRootSt cfgC7).dispLog = ["http://a.com/"] :=
  ⟨reach_cfgC7, ⟨rfl, rfl⟩, rfl, rfl, rfl, rfl⟩

/-- C7, amended: a discovered link whose path ends in a non-HTML
extension such as `.png` is never dispatched to the Fetcher — every
dispatched URL parses to a path that passes the extension filter — and
the discovery-time skip changes nothing: processing such an anchor leaves
the whole crawl state (including `errors` and `html_contents`) exactly as
it was; the skip is reported only as a progress event. -/
theorem C7_amended :
    (∀ (cfg : CrawlCfg) (u : String) (d : Nat) (href : String)
       (rest : List String) (st : St) (al : String) (pl : ParseRes),
       hrefSkipB href = false → urljoinE u href = Except.ok al →
       urlparseE al ("") = Except.ok pl → extSkipB pl.path = true →
       expandLinks cfg u d (href :: rest) st = expandLinks cfg u d rest st) ∧
    (∀ (cfg : CrawlCfg) (s : St), Reachable cfg s → ∀ u ∈ s.dispLog,
       ∃ p, urlparseE u ("") = Except.ok p ∧ extSkipB p.path = false) := by
  constructor
  · intro cfg u d href rest st al pl hskip hj hp hext
    simp [expandLinks, hskip, hj, hp, hext]
  · intro cfg s hs u hu
    exact ((reachable_inv cfg s hs).dispOk u hu).2

theorem C7_amended_witness :
    expandLinks cfgC7 ("http://a.com/") 0 ["/img.png"] (initSt cfgC7.root)
      = expandLinks cfgC7 ("http://a.com/") 0 [] (initSt cfgC7.root) ∧
    ∃ p, urlparseE ("http://a.com/") ("") = Except.ok p ∧
      extSkipB p.path = false :=
  ⟨C7_amended.1 cfgC7 ("http://a.com/") 0 ("/img.png") [] (initSt cfgC7.root)
      ("http://a.com/img.png") pPng rfl rfl rfl (by decide),
    C7_amended.2 cfgC7 (postRootSt cfgC7) reach_cfgC7 ("http://a.com/")
      (by decide)⟩

/-- C8: with a robots policy present, (a) every URL recorded in
`html_contents` — and every dispatched URL — passed `can_fetch`; (b) a URL
the policy rejects can only carry a robots-related message in `errors`;
(c) processing a discovered link that passes the href/extension/host
filters but fails `can_fetch` records exactly the discovery-time robots
error for its normalized form and continues.  Together with the dispatch
rule's own `can_fetch` premise this witnesses the check at both enqueue
time and dispatch time; instantiated at a policy disallowing a path
prefix, every discovered link under that prefix lands in `errors` with a
robots message and never in `html_contents`. -/
theorem C8_robots : ∀ (cfg : CrawlCfg) (cf : String → Bool),
    cfg.robots = some cf →
    (∀ s, Reachable cfg s →
      (∀ u v, s.html.lookup u = some v → cf u = true) ∧
      (∀ u ∈ s.dispLog, cf u = true) ∧
      (∀ u v, s.errors.lookup u = some v → cf u = false →
        v = "Skipped by robots.txt" ∨
        v = "Skipped by robots.txt (discovered link)")) ∧
    (∀ (u : String) (d : Nat) (href : String) (rest : List String) (st : St)
       (al : String) (pl : ParseRes),
      hrefSkipB href = false → urljoinE u href = Except.ok al →
      urlparseE al ("") = Except.ok pl → extSkipB pl.path = false →
      pl.netloc = cfg.baseNetloc ∧ (pl.scheme = "http" ∨ pl.scheme = "https") →
      cf (urlunparseStr { pl with fragment := "" }) = false →
      expandLinks cfg u d (href :: rest) st = expandLinks cfg u d rest
        { st with errors :=
            (upsert st.errors (urlunparseStr { pl with fragment := "" })
              ("Skipped by robots.txt (discovered link)")) }) := by
  intro cfg cf hrob
  constructor
  · intro s hs
    have hInv := reachable_inv cfg s hs
    have hdispOK : ∀ u ∈ s.dispLog, cf u = true := by
      intro u hu
      exact (hInv.dispOk u hu).1 cf hrob
    refine ⟨?_, hdispOK, ?_⟩
    · intro u v hh
      have hcomp := (hInv.htmlKeys u v hh).1
      exact hdispOK u (mem_disp_of_mem_comp cfg s hInv u hcomp)
    · intro u v he hcf
      rcases hInv.errKeys u v he with ⟨hv, _, _⟩ | ⟨p, _, _, _, _, hrOK⟩ |
        ⟨hv, _, _, _⟩ | ⟨h1, _, _⟩ | ⟨h1, _, _, _⟩ | ⟨h1, _, _, _, _⟩
      · exact Or.inl hv
      · exact absurd (hrOK cf hrob) (by simp [hcf])
      · exact Or.inr hv
      · have := hdispOK u (mem_disp_of_mem_comp cfg s hInv u h1)
        exact absurd this (by simp [hcf])
      · have := hdispOK u (mem_disp_of_mem_comp cfg s hInv u h1)
        exact absurd this (by simp [hcf])
      · have := hdispOK u (mem_disp_of_mem_comp cfg s hInv u h1)
        exact absurd this (by simp [hcf])
  · intro u d href rest st al pl hskip hj hp hext hnb hcf
    rw [hnb.1] at hcf
    simp [expandLinks, hskip, hj, hp, hext, hnb.1, hnb.2, hrob, hcf]

theorem C8_robots_witness :
    cfC8 ("http://a.com/") = true ∧
    ("Skipped by robots.txt (discovered link)" = "Skipped by robots.txt" ∨
      ("Skipped by robots.txt (discovered link)" : String)
        = "Skipped by robots.txt (discovered link)") := by
  have h := C8_robots cfgC8 cfC8 rfl
  refine ⟨(h.1 (postRootSt cfgC8) reach_cfgC8).2.1 ("http://a.com/") (by decide), ?_⟩
  exact (h.1 (postRootSt cfgC8) reach_cfgC8).2.2 ("http://a.com/private/x")
    ("Skipped by robots.txt (discovered link)") rfl (by decide)

/-- C9, counterexample: not every key of `html_contents` is a
fragment-stripped URL.  The root URL is enqueued verbatim (line 162), so a
valid root carrying a fragment — `"http://a.com/x#frag"` — ends up as a
key of `html_contents` with its fragment intact. -/
theorem C9_counterexample :
    Reachable cfgC9 (postRootSt cfgC9) ∧
    (postRootSt cfgC9).html.lookup ("http://a.com/x#frag") = some ("<html>") ∧
    urlparseE ("http://a.com/x#frag") ("") = Except.ok pC9 ∧
    pC9.fragment ≠ "" :=
  ⟨reach_cfgC9, rfl, rfl, by decide⟩

/-- C9, amended: every key of `html_contents`, every key of `errors` and
every enqueued URL is either the root URL (used verbatim, possibly
retaining its fragment) or has the normalized shape produced by link
extraction — the unparse of a same-host http/https parse whose fragment
was stripped before dedup and enqueue. -/
theorem C9_amended : ∀ (cfg : CrawlCfg) (s : St), Reachable cfg s → ∀ u,
    ((∃ v, s.html.lookup u = some v) ∨ (∃ v, s.errors.lookup u = some v) ∨
      u ∈ s.enqLog.map Prod.fst) →
    u = cfg.root ∨ NormShape cfg u := by
  intro cfg s hs u hu
  have hInv := reachable_inv cfg s hs
  have hfromEnq : u ∈ s.enqLog.map Prod.fst → u = cfg.root ∨ NormShape cfg u := by
    intro hmem
    obtain ⟨pr, hpr, hfst⟩ := List.mem_map.mp hmem
    rcases hInv.normKeys pr hpr with hn | ⟨h1, _⟩
    · exact Or.inr (hfst ▸ hn)
    · exact Or.inl (hfst ▸ h1)
  rcases hu with ⟨v, hv⟩ | ⟨v, hv⟩ | hmem
  · exact hfromEnq (mem_enq_of_mem_comp cfg s hInv u (hInv.htmlKeys u v hv).1)
  · rcases hInv.errKeys u v hv with ⟨_, _, h3⟩ | ⟨p, _, _, _, h4, _⟩ |
      ⟨_, _, hn, _⟩ | ⟨h1, _, _⟩ | ⟨h1, _, _, _⟩ | ⟨h1, _, _, _, _⟩
    · exact hfromEnq h3
    · exact hfromEnq h4
    · exact Or.inr hn
    · exact hfromEnq (mem_enq_of_mem_comp cfg s hInv u h1)
    · exact hfromEnq (mem_enq_of_mem_comp cfg s hInv u h1)
    · exact hfromEnq (mem_enq_of_mem_comp cfg s hInv u h1)
  · exact hfromEnq hmem

theorem C9_amended_witness :
    ("http://a.com/x#frag" : String) = cfgC9.root ∨
      NormShape cfgC9 ("http://a.com/x#frag") :=
  C9_amended cfgC9 (postRootSt cfgC9) reach_cfgC9 ("http://a.com/x#frag")
    (Or.inl ⟨"<html>", rfl⟩)

theorem startsWith_notHtml_ne_httpErr (s t : String) :
    startsWithStr (("Skipped: Not HTML (Content-Type: " ++ s) ++ t)
      ("HTTP Error:") = false := rfl

theorem startsWith_procErr_ne_httpErr (e : String) :
    startsWithStr ("Processing Error: ValueError - " ++ e)
      ("HTTP Error:") = false := rfl

/-- C10: a `fetch_url_content` run that ends in failure returns an empty
header mapping; `process_single_url` therefore records such a URL with
the message `"Skipped: Not HTML (Content-Type: )"` (the not-HTML skip),
not an HTTP-error message; and an `"HTTP Error: ..."` entry can arise
only for a URL whose response headers carry a `text/html` Content-Type
while its status is not 200. -/
theorem C10_failure_not_html :
    (∀ (net : Nat → AttemptOutcome) (url : String) (rl b : Nat),
      (fetch_url_content net url rl b).succeeded = false →
      (fetch_url_content net url rl b).headers = []) ∧
    (∀ (cfg : CrawlCfg) (u : String) (d : Nat) (st : St),
      (cfg.fetch u).2.2 = [] →
      (processSingleUrl cfg u d st).errors.lookup u
        = some ("Skipped: Not HTML (Content-Type: )")) ∧
    (∀ (cfg : CrawlCfg) (u : String) (d : Nat) (st : St) (v : String),
      st.errors.lookup u = none →
      (processSingleUrl cfg u d st).errors.lookup u = some v →
      startsWithStr v ("HTTP Error:") = true →
      contentHtmlB cfg u = true ∧ fetchStatus cfg u ≠ 200 ∧
        v = httpErrMsg cfg u) := by
  refine ⟨?_, ?_, ?_⟩
  · intro net url rl b hf
    exact (fetchAux_failure_char net url rl b 0 hf).2.1
  · intro cfg u d st hH
    have hctEq : contentTypeOf cfg u = "" := by
      unfold contentTypeOf
      rw [hH]
      rfl
    have hct : contentHtmlB cfg u = false := by
      unfold contentHtmlB
      rw [hctEq]
      rfl
    have hmsg : notHtmlMsg cfg u = "Skipped: Not HTML (Content-Type: )" := by
      unfold notHtmlMsg
      rw [hctEq]
      rfl
    rw [processSingleUrl, if_pos hct, hmsg]
    exact lookup_upsert_self st.errors u _
  · intro cfg u d st v hnone hl hv
    rw [processSingleUrl] at hl
    revert hl
    split
    · rename_i hct
      intro hl
      rw [lookup_upsert_self] at hl
      have hveq := Option.some.inj hl
      have hfalse : startsWithStr (notHtmlMsg cfg u) ("HTTP Error:") = false :=
        startsWith_notHtml_ne_httpErr (contentTypeOf cfg u) (")")
      rw [← hveq, hfalse] at hv
      exact Bool.noConfusion hv
    · rename_i hctne
      split
      · rename_i hst
        split
        · rename_i hd
          intro hl
          rcases expandLinks_errors_new cfg u d (cfg.anchors u) _ u v hl with
            hold | hvrob | ⟨e, hve⟩
          · have hcontra : (none : Option String) = some v := by
              rw [← hnone]
              exact hold
            exact Option.noConfusion hcontra
          · rw [hvrob] at hv
            exact absurd hv (by decide)
          · have hfalse := startsWith_procErr_ne_httpErr e
            rw [hve, hfalse] at hv
            exact Bool.noConfusion hv
        · rename_i hd
          intro hl
          have hcontra : (none : Option String) = some v := by
            rw [← hnone]
            exact hl
          exact Option.noConfusion hcontra
      · rename_i hstne
        intro hl
        rw [lookup_upsert_self] at hl
        have hveq := Option.some.inj hl
        have hct : contentHtmlB cfg u = true := by
          revert hctne
          cases contentHtmlB cfg u <;> simp
        exact ⟨hct, hstne, hveq.symm⟩

theorem C10_failure_not_html_witness :
    (fetch_url_content netTimeout ("http://e.com/") 1 100).headers = [] ∧
    (processSingleUrl cfgC10a ("http://a.com/") 0 (initSt cfgC10a.root)).errors.lookup
      ("http://a.com/") = some ("Skipped: Not HTML (Content-Type: )") ∧
    (contentHtmlB cfgC10b ("http://a.com/") = true ∧
      fetchStatus cfgC10b ("http://a.com/") ≠ 200 ∧
      ("HTTP Error: 404 - not found" : String)
        = httpErrMsg cfgC10b ("http://a.com/")) :=
  ⟨C10_failure_not_html.1 netTimeout ("http://e.com/") 1 100 rfl,
    C10_failure_not_html.2.1 cfgC10a ("http://a.com/") 0 (initSt cfgC10a.root) rfl,
    C10_failure_not_html.2.2 cfgC10b ("http://a.com/") 0 (initSt cfgC10b.root)
      ("HTTP Error: 404 - not found") rfl rfl (by decide)⟩

end DevBridge
